import Mathlib

/-!
# Verification of the video-call signaling server core

A shallow embedding of the room/session state machine of the signaling
server (the group-call variant with lock/waiting-room support found in the
repository's signaling source: `join`, `signal`, `leave`, `disconnecting`,
`state-update`, `rename`, `reaction`, `chat`, `lock-room`, `admit`, `deny`
handlers over a global `rooms : Map<string, RoomInfo>`).

Modelling conventions:
* JavaScript `Map`s become association lists with insertion-order
  semantics: `Map.set` updates in place or appends, `Map.delete` removes.
* Each socket's transport-level room set (`socket.rooms` minus the
  socket's own personal room, which the `disconnecting` handler skips via
  `if (roomId === socket.id) continue`) is kept per socket in
  `SockInfo.joinedRooms`; `socket.join`/`socket.leave` update it.
* Emissions are modelled as a list of `(recipient, event)` pairs:
  `socket.emit` targets the sender, `socket.to(room).emit` every socket
  that joined the transport room except the sender, `io.to(room).emit`
  every socket that joined the transport room, and `io.to(socketId).emit`
  the named socket when it is still connected.
* Handlers are only invoked for connected sockets, so the global `step`
  ignores events whose sender is not in the socket table, mirroring the
  fact that `io.on("connection")` registers handlers per live socket.
* `MAX_ROOM_SIZE` comes from the environment, so it is a parameter.
* JS string `slice(0, n)` is modelled by `String.take n`.
-/

set_option maxRecDepth 100000

namespace VideoCall

/-- Association-list lookup, first match (JS `Map.get`). -/
def lookupA {β : Type} (k : String) : List (String × β) → Option β
  | [] => none
  | (k', v) :: rest => if k' = k then some v else lookupA k rest

/-- Association-list update-or-append (JS `Map.set`: in-place update of an
existing key, else insertion at the end). -/
def upsertA {β : Type} (k : String) (v : β) : List (String × β) → List (String × β)
  | [] => [(k, v)]
  | (k', v') :: rest => if k' = k then (k, v) :: rest else (k', v') :: upsertA k v rest

/-- Association-list removal of the first entry with the given key
(JS `Map.delete`). -/
def eraseA {β : Type} (k : String) : List (String × β) → List (String × β)
  | [] => []
  | (k', v') :: rest => if k' = k then rest else (k', v') :: eraseA k rest

/-- Modify the value at a key when present (JS in-place mutation of an
object already stored in a `Map`). -/
def adjustA {β : Type} (k : String) (f : β → β) : List (String × β) → List (String × β)
  | [] => []
  | (k', v) :: rest => if k' = k then (k', f v) :: rest else (k', v) :: adjustA k f rest

/-- The keys of an association list, in order. -/
def keysA {β : Type} (l : List (String × β)) : List String := l.map Prod.fst

/-! ## Data model (from the source types) -/

/-- `role: "host" | "guest"`. -/
inductive Role where
  | host
  | guest
deriving DecidableEq

/-- `MemberState` from the source: `{ name, muted, videoOn, handRaised?, role }`.
The optional `handRaised?` is always set concretely by the server, so it is a
plain `Bool` here. -/
structure MemberState where
  name : String
  muted : Bool
  videoOn : Bool
  handRaised : Bool
  role : Role
deriving DecidableEq

/-- `Partial<MemberState>`: every field optional.  The `state-update` handler
spreads such an object over the stored state, so any of these five fields can
be supplied. -/
structure PartialState where
  name : Option String := none
  muted : Option Bool := none
  videoOn : Option Bool := none
  handRaised : Option Bool := none
  role : Option Role := none
deriving DecidableEq

/-- `RoomInfo`: members (socket id → state), lock flag, waiting
(socket id → name; `WaitingEntry` holds only the name). -/
structure RoomInfo where
  members : List (String × MemberState)
  locked : Bool
  waiting : List (String × String)
deriving DecidableEq

/-- The per-socket transport state: the transport rooms the socket joined via
`socket.join` (excluding its personal room) and the `socket.data.waitingRoomId`
marker the join handler writes. -/
structure SockInfo where
  joinedRooms : List String
  waitingRoomId : Option String
deriving DecidableEq

/-- The whole mutable state: the global `rooms` table and the connected
sockets with their transport state. -/
structure Config where
  rooms : List (String × RoomInfo)
  sockets : List (String × SockInfo)
deriving DecidableEq

/-- A fresh room, as constructed by the join handler when the id is unknown:
`{ members: new Map(), locked: false, waiting: new Map() }`. -/
def freshRoom : RoomInfo := { members := [], locked := false, waiting := [] }

/-- `SignalPayload`: envelope of a signaling message.  The `sdp`/`candidate`
body is opaque to the router and is modelled as an uninterpreted string. -/
structure SignalPayload where
  roomId : String
  kind : String
  body : String
  toId : String
deriving DecidableEq

/-- Server-to-client events, mirroring the `emit` calls of the source. -/
inductive Event where
  | errorFull
  | joinedAck (selfId : String) (selfRole : Role) (peers : List (String × MemberState))
  | waitingAck
  | waitingList (entries : List (String × String))
  | peerJoined (id : String) (st : MemberState)
  | peerLeft (id : String)
  | signalMsg (p : SignalPayload) (srcId : String)
  | stateUpdate (id : String) (p : PartialState)
  | lockState (locked : Bool)
  | denied
  | reaction (srcId : String) (emoji : String)
  | chat (srcId : String) (text : String) (ts : Nat)
deriving DecidableEq

/-- One emitted message: recipient socket id and event. -/
abbrev Msg := String × Event

/-! ## Emission primitives (transport semantics) -/

/-- The socket ids currently in transport room `rid` (every socket that
called `socket.join(rid)` and has not left). -/
def roomSockets (ss : List (String × SockInfo)) (rid : String) : List String :=
  (ss.filter (fun q => rid ∈ q.2.joinedRooms)).map Prod.fst

/-- `io.to(rid).emit(e)`: to every socket in the transport room. -/
def emitToRoom (ss : List (String × SockInfo)) (rid : String) (e : Event) : List Msg :=
  (roomSockets ss rid).map (fun sid => (sid, e))

/-- `socket.to(rid).emit(e)` / `target.broadcast.to(rid).emit(e)`: to every
socket in the transport room except `ex`. -/
def emitToRoomExcept (ss : List (String × SockInfo)) (rid ex : String) (e : Event) :
    List Msg :=
  ((roomSockets ss rid).filter (fun sid => sid ≠ ex)).map (fun sid => (sid, e))

/-- `io.to(sid).emit(e)` for a socket id: delivered when the socket is still
connected (its personal room exists). -/
def emitToSocket (ss : List (String × SockInfo)) (sid : String) (e : Event) : List Msg :=
  if (lookupA sid ss).isSome then [(sid, e)] else []

/-- `socket.join(rid)` for socket `sid` (transport rooms form a set). -/
def sockJoin (ss : List (String × SockInfo)) (sid rid : String) :
    List (String × SockInfo) :=
  adjustA sid (fun si =>
    { si with joinedRooms :=
        if rid ∈ si.joinedRooms then si.joinedRooms else si.joinedRooms ++ [rid] }) ss

/-- `socket.leave(rid)` for socket `sid`. -/
def sockLeave (ss : List (String × SockInfo)) (sid rid : String) :
    List (String × SockInfo) :=
  adjustA sid (fun si =>
    { si with joinedRooms := si.joinedRooms.filter (fun r => r ≠ rid) }) ss

/-- Set `socket.data.waitingRoomId`. -/
def setWaitingRoom (ss : List (String × SockInfo)) (sid : String) (v : Option String) :
    List (String × SockInfo) :=
  adjustA sid (fun si => { si with waitingRoomId := v }) ss

/-! ## Handlers (one per socket event of the source) -/

/-- `(name && String(name).slice(0, 64)) || "Guest-" + socket.id.slice(0, 6)`:
an absent or empty name falls back to a generated guest label. -/
def safeName (name : Option String) (sid : String) : String :=
  match name with
  | some n => if n = "" then "Guest-" ++ sid.take 6 else n.take 64
  | none => "Guest-" ++ sid.take 6

/-- The `join` handler. -/
def joinH (maxSize : Nat) (c : Config) (sid rid : String) (name : Option String) :
    Config × List Msg :=
  let room := (lookupA rid c.rooms).getD freshRoom
  if maxSize ≤ room.members.length then
    (c, [(sid, Event.errorFull)])
  else
    let sName := safeName name sid
    if room.locked = true ∧ 0 < room.members.length then
      let room' := { room with waiting := upsertA sid sName room.waiting }
      let c' : Config := { rooms := upsertA rid room' c.rooms,
                           sockets := setWaitingRoom c.sockets sid (some rid) }
      (c', (sid, Event.waitingAck) :: emitToRoom c'.sockets rid (Event.waitingList room'.waiting))
    else
      let role : Role := if room.members.length = 0 then Role.host else Role.guest
      let st : MemberState :=
        { name := sName, muted := false, videoOn := true, handRaised := false, role := role }
      let room' := { room with members := upsertA sid st room.members }
      let c' : Config := { rooms := upsertA rid room' c.rooms,
                           sockets := sockJoin c.sockets sid rid }
      let peers := room'.members.filter (fun q => q.1 ≠ sid)
      (c', (sid, Event.joinedAck sid role peers)
            :: emitToRoomExcept c'.sockets rid sid (Event.peerJoined sid st))

/-- The `signal` handler: forward to the target only when the stated room
exists and the target is one of its members. -/
def signalH (c : Config) (sid : String) (p : SignalPayload) : Config × List Msg :=
  match lookupA p.roomId c.rooms with
  | none => (c, [])
  | some room =>
    if (lookupA p.toId room.members).isSome then
      (c, emitToSocket c.sockets p.toId (Event.signalMsg p sid))
    else
      (c, [])

/-- Remove `sid` from the members of room `rid`, deleting the room when its
member map empties (shared by `leave` and `disconnecting`). -/
def removeFromRoom (sid : String) (rooms : List (String × RoomInfo)) (rid : String) :
    List (String × RoomInfo) :=
  match lookupA rid rooms with
  | none => rooms
  | some room =>
    if (eraseA sid room.members).length = 0 then eraseA rid rooms
    else upsertA rid { room with members := eraseA sid room.members } rooms

/-- The `leave` handler: leave the transport room, tell the others, drop the
membership, delete the room when it empties.  The waiting map is untouched. -/
def leaveH (c : Config) (sid rid : String) : Config × List Msg :=
  let ss := sockLeave c.sockets sid rid
  ({ rooms := removeFromRoom sid c.rooms rid, sockets := ss },
   emitToRoomExcept ss rid sid (Event.peerLeft sid))

/-- The first loop of the `disconnecting` handler: for each transport room of
the socket, notify and remove the membership. -/
def discLoop (sid : String) (ss : List (String × SockInfo)) :
    List (String × RoomInfo) × List Msg → List String → List (String × RoomInfo) × List Msg
  | acc, [] => acc
  | (rooms, msgs), rid :: rest =>
      discLoop sid ss
        (removeFromRoom sid rooms rid,
         msgs ++ emitToRoomExcept ss rid sid (Event.peerLeft sid)) rest

/-- The second loop of the `disconnecting` handler: erase the socket from
every waiting map it occurs in. -/
def cleanWaitingRooms (sid : String) (rooms : List (String × RoomInfo)) :
    List (String × RoomInfo) :=
  rooms.map (fun pr =>
    if (lookupA sid pr.2.waiting).isSome then
      (pr.1, { pr.2 with waiting := eraseA sid pr.2.waiting })
    else pr)

/-- The waiting-list updates broadcast by the second loop of `disconnecting`,
one room at a time in table order. -/
def cleanWaitingMsgs (sid : String) (ss : List (String × SockInfo)) :
    List (String × RoomInfo) → List Msg
  | [] => []
  | pr :: rest =>
    if (lookupA sid pr.2.waiting).isSome then
      emitToRoom ss pr.1 (Event.waitingList (eraseA sid pr.2.waiting)) ++
        cleanWaitingMsgs sid ss rest
    else cleanWaitingMsgs sid ss rest

/-- The `disconnecting` handler: remove the session from the members of every
transport room it joined, then from every waiting list, then forget the
socket. -/
def disconnectingH (c : Config) (sid : String) : Config × List Msg :=
  match lookupA sid c.sockets with
  | none => (c, [])
  | some si =>
    let r1 := discLoop sid c.sockets (c.rooms, []) si.joinedRooms
    let rooms2 := cleanWaitingRooms sid r1.1
    let msgs2 := cleanWaitingMsgs sid c.sockets r1.1
    ({ rooms := rooms2, sockets := eraseA sid c.sockets }, r1.2 ++ msgs2)

/-- `{ ...current, ...partial }`: field-by-field overwrite by the fields the
partial object carries; absent fields keep their stored value.  The spread
does not single out any field, so `name` and `role` are overwritten too when
supplied. -/
def mergeState (cur : MemberState) (p : PartialState) : MemberState :=
  { name := p.name.getD cur.name
    muted := p.muted.getD cur.muted
    videoOn := p.videoOn.getD cur.videoOn
    handRaised := p.handRaised.getD cur.handRaised
    role := p.role.getD cur.role }

/-- The `state-update` handler. -/
def stateUpdateH (c : Config) (sid rid : String) (p : PartialState) :
    Config × List Msg :=
  match lookupA rid c.rooms with
  | none => (c, [])
  | some room =>
    match lookupA sid room.members with
    | none => (c, [])
    | some cur =>
      let room' := { room with members := upsertA sid (mergeState cur p) room.members }
      ({ c with rooms := upsertA rid room' c.rooms },
       emitToRoomExcept c.sockets rid sid (Event.stateUpdate sid p))

/-- The `rename` handler: like a name-only state update, but broadcast
room-wide (`io.to`, sender included). -/
def renameH (c : Config) (sid rid nm : String) : Config × List Msg :=
  match lookupA rid c.rooms with
  | none => (c, [])
  | some room =>
    match lookupA sid room.members with
    | none => (c, [])
    | some cur =>
      let sName := if nm = "" then cur.name else nm.take 64
      let room' := { room with members := upsertA sid { cur with name := sName } room.members }
      ({ c with rooms := upsertA rid room' c.rooms },
       emitToRoom c.sockets rid (Event.stateUpdate sid { name := some sName }))

/-- The `reaction` handler: needs an existing room and a non-empty emoji;
broadcast room-wide (`io.to`, sender included when it joined the room). -/
def reactionH (c : Config) (sid rid emoji : String) : Config × List Msg :=
  match lookupA rid c.rooms with
  | none => (c, [])
  | some _ =>
    if emoji = "" then (c, [])
    else (c, emitToRoom c.sockets rid (Event.reaction sid emoji))

/-- The `chat` handler: needs an existing room and non-blank text; directed
when `to` names a member, otherwise broadcast to the others. -/
def chatH (c : Config) (sid rid text : String) (toId : Option String) (ts : Nat) :
    Config × List Msg :=
  match lookupA rid c.rooms with
  | none => (c, [])
  | some room =>
    if text.trim = "" then (c, [])
    else
      match toId with
      | some t =>
        if t ≠ "" ∧ (lookupA t room.members).isSome then
          (c, emitToSocket c.sockets t (Event.chat sid (text.trim.take 2000) ts))
        else (c, emitToRoomExcept c.sockets rid sid (Event.chat sid (text.trim.take 2000) ts))
      | none => (c, emitToRoomExcept c.sockets rid sid (Event.chat sid (text.trim.take 2000) ts))

/-- The `lock-room` handler: host-only toggle of the lock flag. -/
def lockRoomH (c : Config) (sid rid : String) (locked : Bool) : Config × List Msg :=
  match lookupA rid c.rooms with
  | none => (c, [])
  | some room =>
    match lookupA sid room.members with
    | none => (c, [])
    | some cur =>
      if cur.role = Role.host then
        let room' := { room with locked := locked }
        ({ c with rooms := upsertA rid room' c.rooms },
         emitToRoom c.sockets rid (Event.lockState locked))
      else (c, [])

/-- The `admit` handler: host-only; moves a waiting session into the members
with role guest and the defaults, joins it to the transport room, and
broadcasts.  Note: no capacity check. -/
def admitH (c : Config) (sid rid targetId : String) : Config × List Msg :=
  match lookupA rid c.rooms with
  | none => (c, [])
  | some room =>
    match lookupA sid room.members with
    | none => (c, [])
    | some cur =>
      if cur.role = Role.host then
        match lookupA targetId room.waiting with
        | none => (c, [])
        | some wName =>
          if (lookupA targetId c.sockets).isSome then
            let st : MemberState :=
              { name := wName, muted := false, videoOn := true,
                handRaised := false, role := Role.guest }
            let room' := { room with
              waiting := eraseA targetId room.waiting,
              members := upsertA targetId st room.members }
            let ss := setWaitingRoom (sockJoin c.sockets targetId rid) targetId none
            let peers := room'.members.filter (fun q => q.1 ≠ targetId)
            ({ rooms := upsertA rid room' c.rooms, sockets := ss },
             (targetId, Event.joinedAck targetId Role.guest peers)
               :: emitToRoomExcept ss rid targetId (Event.peerJoined targetId st)
               ++ emitToRoom ss rid (Event.waitingList room'.waiting))
          else (c, [])
      else (c, [])

/-- The `deny` handler: host-only removal from the waiting list. -/
def denyH (c : Config) (sid rid targetId : String) : Config × List Msg :=
  match lookupA rid c.rooms with
  | none => (c, [])
  | some room =>
    match lookupA sid room.members with
    | none => (c, [])
    | some cur =>
      if cur.role = Role.host then
        if (lookupA targetId room.waiting).isSome then
          let room' := { room with waiting := eraseA targetId room.waiting }
          ({ c with rooms := upsertA rid room' c.rooms },
           emitToRoom c.sockets rid (Event.waitingList room'.waiting)
             ++ emitToSocket c.sockets targetId Event.denied)
        else (c, [])
      else (c, [])

/-- A new transport connection (fresh socket id). -/
def connectH (c : Config) (sid : String) : Config :=
  match lookupA sid c.sockets with
  | some _ => c
  | none => { c with sockets := c.sockets ++ [(sid, { joinedRooms := [], waitingRoomId := none })] }

/-! ## The operation alphabet and the global step -/

/-- One inbound event.  The sender socket id is the first argument of every
client-to-server message. -/
inductive Op where
  | connect (sid : String)
  | join (sid rid : String) (name : Option String)
  | signal (sid : String) (p : SignalPayload)
  | leave (sid rid : String)
  | disconnecting (sid : String)
  | stateUpdate (sid rid : String) (p : PartialState)
  | rename (sid rid nm : String)
  | reaction (sid rid emoji : String)
  | chat (sid rid text : String) (toId : Option String) (ts : Nat)
  | lockRoom (sid rid : String) (locked : Bool)
  | admitPeer (sid rid targetId : String)
  | deny (sid rid targetId : String)

/-- Run one operation.  Events are only handled for connected sockets (the
handlers are registered inside `io.on("connection")`). -/
def step (maxSize : Nat) (c : Config) : Op → Config × List Msg
  | Op.connect sid => (connectH c sid, [])
  | Op.join sid rid name =>
      if (lookupA sid c.sockets).isSome then joinH maxSize c sid rid name else (c, [])
  | Op.signal sid p =>
      if (lookupA sid c.sockets).isSome then signalH c sid p else (c, [])
  | Op.leave sid rid =>
      if (lookupA sid c.sockets).isSome then leaveH c sid rid else (c, [])
  | Op.disconnecting sid => disconnectingH c sid
  | Op.stateUpdate sid rid p =>
      if (lookupA sid c.sockets).isSome then stateUpdateH c sid rid p else (c, [])
  | Op.rename sid rid nm =>
      if (lookupA sid c.sockets).isSome then renameH c sid rid nm else (c, [])
  | Op.reaction sid rid emoji =>
      if (lookupA sid c.sockets).isSome then reactionH c sid rid emoji else (c, [])
  | Op.chat sid rid text toId ts =>
      if (lookupA sid c.sockets).isSome then chatH c sid rid text toId ts else (c, [])
  | Op.lockRoom sid rid locked =>
      if (lookupA sid c.sockets).isSome then lockRoomH c sid rid locked else (c, [])
  | Op.admitPeer sid rid targetId =>
      if (lookupA sid c.sockets).isSome then admitH c sid rid targetId else (c, [])
  | Op.deny sid rid targetId =>
      if (lookupA sid c.sockets).isSome then denyH c sid rid targetId else (c, [])

/-- The state at process start: no rooms, no sockets. -/
def startConfig : Config := { rooms := [], sockets := [] }

/-- Run a sequence of operations from a state. -/
def run (maxSize : Nat) (c : Config) : List Op → Config
  | [] => c
  | op :: rest => run maxSize (step maxSize c op).1 rest

/-! ## Structural invariants of reachable states -/

/-- Well-formedness of a room table relative to a socket table: unique room
ids, every stored room has at least one member, member and waiting keys are
unique, and every member's socket is connected and has joined the room's
transport room. -/
structure TInv (rooms : List (String × RoomInfo)) (ss : List (String × SockInfo)) : Prop where
  roomsNodup : (keysA rooms).Nodup
  memNonempty : ∀ pr ∈ rooms, pr.2.members ≠ []
  memNodup : ∀ pr ∈ rooms, (keysA pr.2.members).Nodup
  waitNodup : ∀ pr ∈ rooms, (keysA pr.2.waiting).Nodup
  memJoined : ∀ pr ∈ rooms, ∀ q ∈ pr.2.members,
      ∃ si, lookupA q.1 ss = some si ∧ pr.1 ∈ si.joinedRooms

/-- The global invariant. -/
structure Inv (c : Config) : Prop where
  socketsNodup : (keysA c.sockets).Nodup
  tinv : TInv c.rooms c.sockets

/-! ## Concrete traces and configurations used by the checks -/

/-- Capacity 2: the host locks, a session is queued, the host unlocks, a
second member joins directly, then the host admits the queued session —
three members in a room capped at two. -/
def admitOverflowTrace : List Op :=
  [Op.connect "A", Op.join "A" "R" (some "a"), Op.lockRoom "A" "R" true,
   Op.connect "W", Op.join "W" "R" (some "w"), Op.lockRoom "A" "R" false,
   Op.connect "B", Op.join "B" "R" (some "b"), Op.admitPeer "A" "R" "W"]

/-- Two members; then the host leaves, leaving a hostless room. -/
def hostLeaveTrace : List Op :=
  [Op.connect "A", Op.join "A" "R" (some "a"), Op.connect "B",
   Op.join "B" "R" (some "b"), Op.leave "A" "R"]

/-- One session joins two distinct rooms. -/
def twoRoomsTrace : List Op :=
  [Op.connect "A", Op.join "A" "R1" (some "a"), Op.join "A" "R2" (some "a")]

/-- A queued session re-joins after the host unlocks; no admit ever occurs. -/
def rejoinTrace : List Op :=
  [Op.connect "A", Op.join "A" "R" (some "a"), Op.lockRoom "A" "R" true,
   Op.connect "W", Op.join "W" "R" (some "w"), Op.lockRoom "A" "R" false,
   Op.join "W" "R" (some "w")]

/-- A queued session sends an explicit leave for the room it waits on. -/
def leaveWaitingTrace : List Op :=
  [Op.connect "A", Op.join "A" "R" (some "a"), Op.lockRoom "A" "R" true,
   Op.connect "W", Op.join "W" "R" (some "w"), Op.leave "W" "R"]

/-- A host sends a state-update whose partial carries a role field. -/
def roleUpdateTrace : List Op :=
  [Op.connect "A", Op.join "A" "R" (some "a"),
   Op.stateUpdate "A" "R" { role := some Role.guest }]

/-- A reachable one-member room. -/
def oneMemberOps : List Op := [Op.connect "A", Op.join "A" "R" (some "a")]

/-- A reachable two-member room. -/
def twoMemberOps : List Op :=
  [Op.connect "A", Op.join "A" "R" (some "a"), Op.connect "B", Op.join "B" "R" (some "b")]

/-- A reachable locked one-member room plus a second connected socket. -/
def lockedRoomOps : List Op :=
  [Op.connect "A", Op.join "A" "R" (some "a"), Op.lockRoom "A" "R" true, Op.connect "W"]

/-- A reachable locked room with one member and one waiting session. -/
def waitingOps : List Op :=
  [Op.connect "A", Op.join "A" "R" (some "a"), Op.lockRoom "A" "R" true,
   Op.connect "W", Op.join "W" "R" (some "w")]

/-- The member state of the first joiner of the concrete traces above. -/
def stHostA : MemberState :=
  { name := "a", muted := false, videoOn := true, handRaised := false, role := Role.host }

/-- The member state of the second direct joiner of `twoMemberOps`. -/
def stGuestB : MemberState :=
  { name := "b", muted := false, videoOn := true, handRaised := false, role := Role.guest }

/-! ## Association-list lemmas -/

theorem mem_of_lookupA_eq_some {β : Type} {k : String} {v : β} {l : List (String × β)}
    (h : lookupA k l = some v) : (k, v) ∈ l := by
  induction l with
  | nil => simp [lookupA] at h
  | cons hd tl ih =>
    obtain ⟨a, b⟩ := hd
    by_cases hk : a = k
    · simp [lookupA, hk] at h
      simp [hk, h]
    · simp [lookupA, hk] at h
      exact List.mem_cons_of_mem _ (ih h)

theorem lookupA_isSome_iff_mem_keysA {β : Type} {k : String} {l : List (String × β)} :
    (lookupA k l).isSome = true ↔ k ∈ keysA l := by
  induction l with
  | nil => simp [lookupA, keysA]
  | cons hd tl ih =>
    obtain ⟨a, b⟩ := hd
    by_cases hk : a = k
    · simp [lookupA, hk, keysA]
    · simp only [lookupA, if_neg hk, keysA, List.map_cons, List.mem_cons]
      rw [show keysA tl = tl.map Prod.fst from rfl] at ih
      simp [ih, Ne.symm hk]

theorem lookupA_eq_none_iff_not_mem_keysA {β : Type} {k : String} {l : List (String × β)} :
    lookupA k l = none ↔ k ∉ keysA l := by
  rw [← lookupA_isSome_iff_mem_keysA]
  cases lookupA k l <;> simp

theorem mem_keysA_of_mem {β : Type} {pr : String × β} {l : List (String × β)}
    (h : pr ∈ l) : pr.1 ∈ keysA l := List.mem_map_of_mem Prod.fst h

theorem mem_upsertA {β : Type} {pr : String × β} {k : String} {v : β}
    {l : List (String × β)} (h : pr ∈ upsertA k v l) : pr = (k, v) ∨ pr ∈ l := by
  induction l with
  | nil => simpa [upsertA] using h
  | cons hd tl ih =>
    obtain ⟨a, b⟩ := hd
    by_cases hk : a = k
    · simp [upsertA, hk] at h
      rcases h with h | h
      · exact Or.inl (by simp [h])
      · exact Or.inr (List.mem_cons_of_mem _ h)
    · simp only [upsertA, if_neg hk, List.mem_cons] at h
      rcases h with h | h
      · exact Or.inr (by simp [h])
      · rcases ih h with h' | h'
        · exact Or.inl h'
        · exact Or.inr (List.mem_cons_of_mem _ h')

theorem keysA_upsertA {β : Type} (k : String) (v : β) (l : List (String × β)) :
    keysA (upsertA k v l) = if k ∈ keysA l then keysA l else keysA l ++ [k] := by
  induction l with
  | nil => simp [upsertA, keysA]
  | cons hd tl ih =>
    obtain ⟨a, b⟩ := hd
    by_cases hk : a = k
    · simp [upsertA, hk, keysA]
    · simp only [upsertA, if_neg hk, keysA, List.map_cons] at ih ⊢
      by_cases hm : k ∈ tl.map Prod.fst
      · rw [if_pos hm] at ih
        rw [if_pos (List.mem_cons_of_mem _ hm), ih]
      · rw [if_neg hm] at ih
        have : k ∉ (a :: tl.map Prod.fst) := by
          intro hc
          rcases List.mem_cons.mp hc with hc | hc
          · exact hk hc.symm
          · exact hm hc
        rw [if_neg this, ih]
        simp

theorem nodup_keysA_upsertA {β : Type} {k : String} {v : β} {l : List (String × β)}
    (h : (keysA l).Nodup) : (keysA (upsertA k v l)).Nodup := by
  rw [keysA_upsertA]
  by_cases hm : k ∈ keysA l
  · simpa [hm] using h
  · simp only [if_neg hm]
    refine List.Nodup.append h (List.nodup_singleton k) ?_
    intro a ha hb
    simp at hb
    subst hb
    exact hm ha

theorem upsertA_ne_nil {β : Type} (k : String) (v : β) (l : List (String × β)) :
    upsertA k v l ≠ [] := by
  cases l with
  | nil => simp [upsertA]
  | cons hd tl =>
    obtain ⟨a, b⟩ := hd
    simp only [upsertA]
    split <;> simp

theorem lookupA_upsertA_self {β : Type} (k : String) (v : β) (l : List (String × β)) :
    lookupA k (upsertA k v l) = some v := by
  induction l with
  | nil => simp [upsertA, lookupA]
  | cons hd tl ih =>
    obtain ⟨a, b⟩ := hd
    by_cases hk : a = k
    · simp [upsertA, hk, lookupA]
    · simp [upsertA, hk, lookupA, ih]

theorem lookupA_upsertA_ne {β : Type} {k x : String} (hne : x ≠ k) (v : β)
    (l : List (String × β)) : lookupA x (upsertA k v l) = lookupA x l := by
  induction l with
  | nil => simp [upsertA, lookupA, Ne.symm hne]
  | cons hd tl ih =>
    obtain ⟨a, b⟩ := hd
    by_cases hk : a = k
    · subst hk
      simp [upsertA, lookupA, Ne.symm hne, ih]
    · simp [upsertA, hk, lookupA, ih]

theorem mem_eraseA {β : Type} {pr : String × β} {k : String} {l : List (String × β)}
    (h : pr ∈ eraseA k l) : pr ∈ l := by
  induction l with
  | nil => simp [eraseA] at h
  | cons hd tl ih =>
    obtain ⟨a, b⟩ := hd
    by_cases hk : a = k
    · simp only [eraseA, if_pos hk] at h
      exact List.mem_cons_of_mem _ h
    · simp only [eraseA, if_neg hk, List.mem_cons] at h
      rcases h with h | h
      · simp [h]
      · exact List.mem_cons_of_mem _ (ih h)

theorem keysA_eraseA_sublist {β : Type} (k : String) (l : List (String × β)) :
    List.Sublist (keysA (eraseA k l)) (keysA l) := by
  induction l with
  | nil => simp [eraseA, keysA]
  | cons hd tl ih =>
    obtain ⟨a, b⟩ := hd
    by_cases hk : a = k
    · simp only [eraseA, if_pos hk, keysA, List.map_cons]
      exact List.sublist_cons_self a (tl.map Prod.fst)
    · simp only [eraseA, if_neg hk, keysA, List.map_cons]
      exact List.Sublist.cons₂ _ ih

theorem nodup_keysA_eraseA {β : Type} {k : String} {l : List (String × β)}
    (h : (keysA l).Nodup) : (keysA (eraseA k l)).Nodup :=
  (keysA_eraseA_sublist k l).nodup h

theorem lookupA_eraseA_ne {β : Type} {k x : String} (hne : x ≠ k)
    (l : List (String × β)) : lookupA x (eraseA k l) = lookupA x l := by
  induction l with
  | nil => simp [eraseA]
  | cons hd tl ih =>
    obtain ⟨a, b⟩ := hd
    by_cases hk : a = k
    · subst hk
      simp [eraseA, lookupA, Ne.symm hne]
    · simp [eraseA, hk, lookupA, ih]

theorem mem_eraseA_nodup {β : Type} {pr : String × β} {k : String}
    {l : List (String × β)} (hnd : (keysA l).Nodup) (h : pr ∈ eraseA k l) :
    pr ∈ l ∧ pr.1 ≠ k := by
  refine ⟨mem_eraseA h, ?_⟩
  induction l with
  | nil => simp [eraseA] at h
  | cons hd tl ih =>
    obtain ⟨a, b⟩ := hd
    simp only [keysA, List.map_cons, List.nodup_cons] at hnd
    by_cases hk : a = k
    · simp only [eraseA, if_pos hk] at h
      intro hpk
      apply hnd.1
      rw [hk, ← hpk]
      exact mem_keysA_of_mem h
    · simp only [eraseA, if_neg hk, List.mem_cons] at h
      rcases h with h | h
      · intro hpk
        rw [h] at hpk
        exact hk hpk
      · exact ih hnd.2 h

theorem lookupA_eraseA_self {β : Type} {k : String} {l : List (String × β)}
    (hnd : (keysA l).Nodup) : lookupA k (eraseA k l) = none := by
  rw [lookupA_eq_none_iff_not_mem_keysA]
  intro hmem
  simp only [keysA, List.mem_map] at hmem
  obtain ⟨pr, hpr, hfst⟩ := hmem
  exact (mem_eraseA_nodup hnd hpr).2 hfst

theorem mem_upsertA_nodup {β : Type} {pr : String × β} {k : String} {v : β}
    {l : List (String × β)} (hnd : (keysA l).Nodup) (h : pr ∈ upsertA k v l) :
    pr = (k, v) ∨ (pr ∈ l ∧ pr.1 ≠ k) := by
  induction l with
  | nil =>
    simp [upsertA] at h
    exact Or.inl (by simp [h])
  | cons hd tl ih =>
    obtain ⟨a, b⟩ := hd
    simp only [keysA, List.map_cons, List.nodup_cons] at hnd
    by_cases hk : a = k
    · simp only [upsertA, if_pos hk, List.mem_cons] at h
      rcases h with h | h
      · exact Or.inl h
      · refine Or.inr ⟨List.mem_cons_of_mem _ h, ?_⟩
        intro hpk
        apply hnd.1
        rw [hk, ← hpk]
        exact mem_keysA_of_mem h
    · simp only [upsertA, if_neg hk, List.mem_cons] at h
      rcases h with h | h
      · refine Or.inr ⟨by simp [h], ?_⟩
        rw [h]
        exact hk
      · rcases ih hnd.2 h with h' | h'
        · exact Or.inl h'
        · exact Or.inr ⟨List.mem_cons_of_mem _ h'.1, h'.2⟩

theorem lookupA_adjustA_self {β : Type} (k : String) (f : β → β)
    (l : List (String × β)) : lookupA k (adjustA k f l) = (lookupA k l).map f := by
  induction l with
  | nil => simp [adjustA, lookupA]
  | cons hd tl ih =>
    obtain ⟨a, b⟩ := hd
    by_cases hk : a = k
    · simp [adjustA, hk, lookupA]
    · simp [adjustA, hk, lookupA, ih]

theorem lookupA_adjustA_ne {β : Type} {k x : String} (hne : x ≠ k) (f : β → β)
    (l : List (String × β)) : lookupA x (adjustA k f l) = lookupA x l := by
  induction l with
  | nil => simp [adjustA]
  | cons hd tl ih =>
    obtain ⟨a, b⟩ := hd
    by_cases hk : a = k
    · subst hk
      simp [adjustA, lookupA, Ne.symm hne]
    · simp [adjustA, hk, lookupA, ih]

theorem keysA_adjustA {β : Type} (k : String) (f : β → β) (l : List (String × β)) :
    keysA (adjustA k f l) = keysA l := by
  induction l with
  | nil => simp [adjustA]
  | cons hd tl ih =>
    obtain ⟨a, b⟩ := hd
    by_cases hk : a = k
    · simp [adjustA, hk, keysA]
    · simp only [adjustA, if_neg hk, keysA, List.map_cons] at ih ⊢
      rw [ih]

theorem lookupA_append {β : Type} (k : String) (l l' : List (String × β)) :
    lookupA k (l ++ l') =
      match lookupA k l with
      | some v => some v
      | none => lookupA k l' := by
  induction l with
  | nil => simp [lookupA]
  | cons hd tl ih =>
    obtain ⟨a, b⟩ := hd
    by_cases hk : a = k
    · simp [lookupA, hk]
    · simp [lookupA, hk, ih]

theorem length_upsertA {β : Type} (k : String) (v : β) (l : List (String × β)) :
    (upsertA k v l).length = if k ∈ keysA l then l.length else l.length + 1 := by
  induction l with
  | nil => simp [upsertA, keysA]
  | cons hd tl ih =>
    obtain ⟨a, b⟩ := hd
    by_cases hk : a = k
    · simp [upsertA, hk, keysA]
    · simp only [upsertA, if_neg hk, List.length_cons, keysA, List.map_cons] at ih ⊢
      by_cases hm : k ∈ tl.map Prod.fst
      · rw [if_pos hm] at ih
        rw [if_pos (List.mem_cons_of_mem _ hm), ih]
      · rw [if_neg hm] at ih
        have : k ∉ (a :: tl.map Prod.fst) := by
          intro hc
          rcases List.mem_cons.mp hc with hc | hc
          · exact hk hc.symm
          · exact hm hc
        rw [if_neg this, ih]

theorem exists_of_mem_keysA {β : Type} {k : String} {l : List (String × β)}
    (h : k ∈ keysA l) : ∃ v, (k, v) ∈ l := by
  simp only [keysA, List.mem_map] at h
  obtain ⟨pr, hpr, hf⟩ := h
  exact ⟨pr.2, by rwa [show (k, pr.2) = pr from Prod.ext hf.symm rfl]⟩

theorem isSome_lookupA_of_mem {β : Type} {pr : String × β} {l : List (String × β)}
    (h : pr ∈ l) : (lookupA pr.1 l).isSome = true :=
  lookupA_isSome_iff_mem_keysA.mpr (mem_keysA_of_mem h)

/-- A socket-table transformation that only grows `joinedRooms` preserves the
member-joined condition. -/
theorem TInv.mono {rooms : List (String × RoomInfo)}
    {ss ss' : List (String × SockInfo)} (h : TInv rooms ss)
    (hss : ∀ x r, (∃ si, lookupA x ss = some si ∧ r ∈ si.joinedRooms) →
        ∃ si', lookupA x ss' = some si' ∧ r ∈ si'.joinedRooms) : TInv rooms ss' :=
  ⟨h.roomsNodup, h.memNonempty, h.memNodup, h.waitNodup,
   fun pr hpr q hq => hss q.1 pr.1 (h.memJoined pr hpr q hq)⟩

theorem setWaitingRoom_joined {ss : List (String × SockInfo)} {sid : String}
    {v : Option String} (x r : String)
    (h : ∃ si, lookupA x ss = some si ∧ r ∈ si.joinedRooms) :
    ∃ si', lookupA x (setWaitingRoom ss sid v) = some si' ∧ r ∈ si'.joinedRooms := by
  obtain ⟨si, hsi, hr⟩ := h
  by_cases hx : x = sid
  · subst hx
    refine ⟨{ si with waitingRoomId := v }, ?_, hr⟩
    rw [setWaitingRoom, lookupA_adjustA_self, hsi]
    rfl
  · exact ⟨si, by rwa [setWaitingRoom, lookupA_adjustA_ne hx], hr⟩

theorem sockJoin_joined {ss : List (String × SockInfo)} {sid rid : String} (x r : String)
    (h : ∃ si, lookupA x ss = some si ∧ r ∈ si.joinedRooms) :
    ∃ si', lookupA x (sockJoin ss sid rid) = some si' ∧ r ∈ si'.joinedRooms := by
  obtain ⟨si, hsi, hr⟩ := h
  by_cases hx : x = sid
  · subst hx
    refine ⟨_, by rw [sockJoin, lookupA_adjustA_self, hsi]; rfl, ?_⟩
    by_cases hm : rid ∈ si.joinedRooms <;> simp [hm, hr]
  · exact ⟨si, by rwa [sockJoin, lookupA_adjustA_ne hx], hr⟩

theorem sockJoin_self_joined {ss : List (String × SockInfo)} {sid rid : String} {si : SockInfo}
    (hsi : lookupA sid ss = some si) :
    ∃ si', lookupA sid (sockJoin ss sid rid) = some si' ∧ rid ∈ si'.joinedRooms := by
  refine ⟨_, by rw [sockJoin, lookupA_adjustA_self, hsi]; rfl, ?_⟩
  by_cases hm : rid ∈ si.joinedRooms <;> simp [hm]

/-- Membership in the room table after `removeFromRoom`: either an untouched
room with a different id, or the shrunk room itself. -/
theorem mem_removeFromRoom {sid rid : String} {rooms : List (String × RoomInfo)}
    {pr : String × RoomInfo} (hnd : (keysA rooms).Nodup)
    (h : pr ∈ removeFromRoom sid rooms rid) :
    (pr ∈ rooms ∧ pr.1 ≠ rid) ∨
    (∃ room, lookupA rid rooms = some room ∧
      pr = (rid, { room with members := eraseA sid room.members }) ∧
      eraseA sid room.members ≠ []) := by
  unfold removeFromRoom at h
  cases hre : lookupA rid rooms with
  | none =>
    rw [hre] at h
    refine Or.inl ⟨h, ?_⟩
    intro hpr
    have := isSome_lookupA_of_mem h
    rw [hpr, hre] at this
    simp at this
  | some room =>
    rw [hre] at h
    simp only at h
    by_cases hlen : (eraseA sid room.members).length = 0
    · rw [if_pos hlen] at h
      exact Or.inl (mem_eraseA_nodup hnd h)
    · rw [if_neg hlen] at h
      rcases mem_upsertA_nodup hnd h with h' | h'
      · exact Or.inr ⟨room, rfl, h', by
          intro hc
          exact hlen (by rw [hc]; rfl)⟩
      · exact Or.inl h'

theorem tinv_removeFromRoom {sid rid : String} {rooms : List (String × RoomInfo)}
    {ss : List (String × SockInfo)} (h : TInv rooms ss) :
    TInv (removeFromRoom sid rooms rid) ss := by
  refine ⟨?_, ?_, ?_, ?_, ?_⟩
  · unfold removeFromRoom
    cases hre : lookupA rid rooms with
    | none => exact h.roomsNodup
    | some room =>
      simp only
      split
      · exact nodup_keysA_eraseA h.roomsNodup
      · exact nodup_keysA_upsertA h.roomsNodup
  · intro pr hpr
    rcases mem_removeFromRoom h.roomsNodup hpr with ⟨hm, _⟩ | ⟨room, _, hpr', hne⟩
    · exact h.memNonempty pr hm
    · rw [hpr']
      exact hne
  · intro pr hpr
    rcases mem_removeFromRoom h.roomsNodup hpr with ⟨hm, _⟩ | ⟨room, hre, hpr', _⟩
    · exact h.memNodup pr hm
    · rw [hpr']
      exact nodup_keysA_eraseA (h.memNodup (rid, room) (mem_of_lookupA_eq_some hre))
  · intro pr hpr
    rcases mem_removeFromRoom h.roomsNodup hpr with ⟨hm, _⟩ | ⟨room, hre, hpr', _⟩
    · exact h.waitNodup pr hm
    · rw [hpr']
      exact h.waitNodup (rid, room) (mem_of_lookupA_eq_some hre)
  · intro pr hpr q hq
    rcases mem_removeFromRoom h.roomsNodup hpr with ⟨hm, _⟩ | ⟨room, hre, hpr', _⟩
    · exact h.memJoined pr hm q hq
    · rw [hpr'] at hq ⊢
      simpa using h.memJoined (rid, room) (mem_of_lookupA_eq_some hre) q (mem_eraseA hq)

/-- After `removeFromRoom sid _ rid`, the session `sid` is only a member of
rooms it was a member of before, other than `rid`. -/
theorem removeFromRoom_cover {sid rid : String} {rooms : List (String × RoomInfo)}
    {ss : List (String × SockInfo)} (h : TInv rooms ss) {pr : String × RoomInfo}
    (hpr : pr ∈ removeFromRoom sid rooms rid) (hmem : sid ∈ keysA pr.2.members) :
    pr ∈ rooms ∧ pr.1 ≠ rid := by
  rcases mem_removeFromRoom h.roomsNodup hpr with h' | ⟨room, hre, hpr', _⟩
  · exact h'
  · exfalso
    rw [hpr'] at hmem
    rw [← lookupA_isSome_iff_mem_keysA] at hmem
    rw [lookupA_eraseA_self (h.memNodup _ (mem_of_lookupA_eq_some hre))] at hmem
    simp at hmem

theorem discLoop_tinv {sid : String} {ss : List (String × SockInfo)}
    (rids : List String) (rooms : List (String × RoomInfo)) (msgs : List Msg)
    (h : TInv rooms ss) : TInv (discLoop sid ss (rooms, msgs) rids).1 ss := by
  induction rids generalizing rooms msgs with
  | nil => exact h
  | cons rid rest ih =>
    simp only [discLoop]
    exact ih _ _ (tinv_removeFromRoom h)

theorem discLoop_clears {sid : String} {ss : List (String × SockInfo)}
    (rids : List String) (rooms : List (String × RoomInfo)) (msgs : List Msg)
    (h : TInv rooms ss)
    (hcov : ∀ pr ∈ rooms, sid ∈ keysA pr.2.members → pr.1 ∈ rids) :
    ∀ pr ∈ (discLoop sid ss (rooms, msgs) rids).1, sid ∉ keysA pr.2.members := by
  induction rids generalizing rooms msgs with
  | nil =>
    intro pr hpr hmem
    simpa using hcov pr hpr hmem
  | cons rid rest ih =>
    simp only [discLoop]
    apply ih _ _ (tinv_removeFromRoom h)
    intro pr hpr hmem
    have h2 := removeFromRoom_cover h hpr hmem
    have h3 := hcov pr h2.1 hmem
    rcases List.mem_cons.mp h3 with hc | hc
    · exact absurd hc h2.2
    · exact hc

theorem keysA_cleanWaitingRooms (sid : String) (rooms : List (String × RoomInfo)) :
    keysA (cleanWaitingRooms sid rooms) = keysA rooms := by
  unfold keysA cleanWaitingRooms
  rw [List.map_map]
  apply List.map_congr_left
  intro pr _
  by_cases hp : (lookupA sid pr.2.waiting).isSome = true <;> simp [hp]

theorem mem_cleanWaitingRooms {sid : String} {rooms : List (String × RoomInfo)}
    {pr : String × RoomInfo} (h : pr ∈ cleanWaitingRooms sid rooms) :
    ∃ pr0 ∈ rooms, pr.1 = pr0.1 ∧ pr.2.members = pr0.2.members ∧
      (pr.2.waiting = pr0.2.waiting ∨ pr.2.waiting = eraseA sid pr0.2.waiting) := by
  unfold cleanWaitingRooms at h
  obtain ⟨pr0, h0, heq⟩ := List.mem_map.mp h
  by_cases hp : (lookupA sid pr0.2.waiting).isSome = true
  · rw [if_pos hp] at heq
    exact ⟨pr0, h0, by rw [← heq], by rw [← heq], Or.inr (by rw [← heq])⟩
  · rw [if_neg hp] at heq
    exact ⟨pr0, h0, by rw [← heq], by rw [← heq], Or.inl (by rw [← heq])⟩

theorem tinv_cleanWaitingRooms {sid : String} {rooms : List (String × RoomInfo)}
    {ss : List (String × SockInfo)} (h : TInv rooms ss) :
    TInv (cleanWaitingRooms sid rooms) ss := by
  refine ⟨?_, ?_, ?_, ?_, ?_⟩
  · rw [keysA_cleanWaitingRooms]
    exact h.roomsNodup
  · intro pr hpr
    obtain ⟨pr0, h0, _, hm, _⟩ := mem_cleanWaitingRooms hpr
    rw [hm]
    exact h.memNonempty pr0 h0
  · intro pr hpr
    obtain ⟨pr0, h0, _, hm, _⟩ := mem_cleanWaitingRooms hpr
    rw [hm]
    exact h.memNodup pr0 h0
  · intro pr hpr
    obtain ⟨pr0, h0, _, _, hw⟩ := mem_cleanWaitingRooms hpr
    rcases hw with hw | hw
    · rw [hw]
      exact h.waitNodup pr0 h0
    · rw [hw]
      exact nodup_keysA_eraseA (h.waitNodup pr0 h0)
  · intro pr hpr q hq
    obtain ⟨pr0, h0, hid, hm, _⟩ := mem_cleanWaitingRooms hpr
    rw [hm] at hq
    rw [hid]
    exact h.memJoined pr0 h0 q hq

theorem cleanWaitingRooms_clears {sid : String} {rooms : List (String × RoomInfo)}
    {ss : List (String × SockInfo)} (h : TInv rooms ss) :
    ∀ pr ∈ cleanWaitingRooms sid rooms, lookupA sid pr.2.waiting = none := by
  intro pr hpr
  unfold cleanWaitingRooms at hpr
  obtain ⟨pr0, h0, heq⟩ := List.mem_map.mp hpr
  by_cases hp : (lookupA sid pr0.2.waiting).isSome = true
  · rw [if_pos hp] at heq
    rw [← heq]
    exact lookupA_eraseA_self (h.waitNodup pr0 h0)
  · rw [if_neg hp] at heq
    rw [← heq]
    cases hl : lookupA sid pr0.2.waiting with
    | none => rfl
    | some w => exact absurd (by simp [hl]) hp

theorem cleanWaitingRooms_members {sid : String} {rooms : List (String × RoomInfo)}
    (hall : ∀ pr ∈ rooms, sid ∉ keysA pr.2.members) :
    ∀ pr ∈ cleanWaitingRooms sid rooms, sid ∉ keysA pr.2.members := by
  intro pr hpr
  obtain ⟨pr0, h0, _, hm, _⟩ := mem_cleanWaitingRooms hpr
  rw [hm]
  exact hall pr0 h0


/-! ## Invariant preservation, handler by handler -/

theorem inv_connectH {c : Config} (sid : String) (h : Inv c) : Inv (connectH c sid) := by
  unfold connectH
  split
  · exact h
  next hre =>
    refine ⟨?_, ?_⟩
    · have hnm : sid ∉ keysA c.sockets := lookupA_eq_none_iff_not_mem_keysA.mp hre
      show (keysA (c.sockets ++ [(sid, _)])).Nodup
      rw [keysA, List.map_append]
      refine List.Nodup.append h.socketsNodup (List.nodup_singleton _) ?_
      intro a ha hb
      simp at hb
      subst hb
      exact hnm ha
    · refine TInv.mono h.tinv ?_
      intro x r hx
      obtain ⟨si, hsi, hr⟩ := hx
      refine ⟨si, ?_, hr⟩
      rw [lookupA_append, hsi]

theorem inv_joinH {m : Nat} {c : Config} {sid rid : String} {nm : Option String}
    (hs : (lookupA sid c.sockets).isSome = true) (h : Inv c) :
    Inv (joinH m c sid rid nm).1 := by
  simp only [joinH]
  split
  next hfull => exact h
  next hfull =>
    split
    next hlock =>
      -- waiting branch: the room must already exist (a fresh room is unlocked)
      cases hre : lookupA rid c.rooms with
      | none =>
        rw [hre] at hlock
        simp [freshRoom] at hlock
      | some room =>
        rw [hre] at hlock hfull
        simp only [Option.getD_some] at hlock hfull ⊢
        have hroom := mem_of_lookupA_eq_some hre
        refine ⟨?_, ⟨?_, ?_, ?_, ?_, ?_⟩⟩
        · show (keysA (setWaitingRoom c.sockets sid (some rid))).Nodup
          rw [setWaitingRoom, keysA_adjustA]
          exact h.socketsNodup
        · exact nodup_keysA_upsertA h.tinv.roomsNodup
        · intro pr hpr
          rcases mem_upsertA hpr with hpr' | hpr'
          · rw [hpr']
            exact List.length_pos.mp hlock.2
          · exact h.tinv.memNonempty pr hpr'
        · intro pr hpr
          rcases mem_upsertA hpr with hpr' | hpr'
          · rw [hpr']
            exact h.tinv.memNodup (rid, room) hroom
          · exact h.tinv.memNodup pr hpr'
        · intro pr hpr
          rcases mem_upsertA hpr with hpr' | hpr'
          · rw [hpr']
            exact nodup_keysA_upsertA (h.tinv.waitNodup (rid, room) hroom)
          · exact h.tinv.waitNodup pr hpr'
        · intro pr hpr q hq
          rcases mem_upsertA hpr with hpr' | hpr'
          · rw [hpr'] at hq ⊢
            exact setWaitingRoom_joined q.1 rid (h.tinv.memJoined (rid, room) hroom q hq)
          · exact setWaitingRoom_joined q.1 pr.1 (h.tinv.memJoined pr hpr' q hq)
    next hlock =>
      -- active-member branch
      obtain ⟨si, hsi⟩ := Option.isSome_iff_exists.mp hs
      refine ⟨?_, ⟨?_, ?_, ?_, ?_, ?_⟩⟩
      · show (keysA (sockJoin c.sockets sid rid)).Nodup
        rw [sockJoin, keysA_adjustA]
        exact h.socketsNodup
      · exact nodup_keysA_upsertA h.tinv.roomsNodup
      · intro pr hpr
        rcases mem_upsertA hpr with hpr' | hpr'
        · rw [hpr']
          exact upsertA_ne_nil _ _ _
        · exact h.tinv.memNonempty pr hpr'
      · intro pr hpr
        rcases mem_upsertA hpr with hpr' | hpr'
        · rw [hpr']
          apply nodup_keysA_upsertA
          cases hre : lookupA rid c.rooms with
          | none => simp [freshRoom, keysA]
          | some room =>
            simp only [Option.getD_some]
            exact h.tinv.memNodup (rid, room) (mem_of_lookupA_eq_some hre)
        · exact h.tinv.memNodup pr hpr'
      · intro pr hpr
        rcases mem_upsertA hpr with hpr' | hpr'
        · rw [hpr']
          cases hre : lookupA rid c.rooms with
          | none => simp [freshRoom, keysA]
          | some room =>
            simp only [Option.getD_some]
            exact h.tinv.waitNodup (rid, room) (mem_of_lookupA_eq_some hre)
        · exact h.tinv.waitNodup pr hpr'
      · intro pr hpr q hq
        rcases mem_upsertA hpr with hpr' | hpr'
        · rw [hpr'] at hq ⊢
          rcases mem_upsertA hq with hq' | hq'
          · rw [hq']
            exact sockJoin_self_joined hsi
          · cases hre : lookupA rid c.rooms with
            | none =>
              rw [hre] at hq'
              simp [freshRoom] at hq'
            | some room =>
              rw [hre] at hq'
              simp only [Option.getD_some] at hq'
              exact sockJoin_joined q.1 rid
                (h.tinv.memJoined (rid, room) (mem_of_lookupA_eq_some hre) q hq')
        · exact sockJoin_joined q.1 pr.1 (h.tinv.memJoined pr hpr' q hq)

theorem signalH_fst (c : Config) (sid : String) (p : SignalPayload) :
    (signalH c sid p).1 = c := by
  unfold signalH
  split
  · rfl
  · split <;> rfl

theorem reactionH_fst (c : Config) (sid rid emoji : String) :
    (reactionH c sid rid emoji).1 = c := by
  unfold reactionH
  split
  · rfl
  · split <;> rfl

theorem chatH_fst (c : Config) (sid rid text : String) (toId : Option String) (ts : Nat) :
    (chatH c sid rid text toId ts).1 = c := by
  unfold chatH
  split
  · rfl
  · split
    · rfl
    · split
      · split <;> rfl
      · rfl

theorem inv_leaveH {c : Config} (sid rid : String) (h : Inv c) :
    Inv (leaveH c sid rid).1 := by
  unfold leaveH
  refine ⟨?_, ?_⟩
  · show (keysA (sockLeave c.sockets sid rid)).Nodup
    rw [sockLeave, keysA_adjustA]
    exact h.socketsNodup
  · have hT := @tinv_removeFromRoom sid rid c.rooms c.sockets h.tinv
    refine ⟨hT.roomsNodup, hT.memNonempty, hT.memNodup, hT.waitNodup, ?_⟩
    intro pr hpr q hq
    obtain ⟨si, hsi, hr⟩ := hT.memJoined pr hpr q hq
    by_cases hx : q.1 = sid
    · -- the leaving session: it can no longer be a member of room `rid`
      have hne : pr.1 ≠ rid := by
        refine (removeFromRoom_cover h.tinv hpr ?_).2
        rw [← lookupA_isSome_iff_mem_keysA, ← hx]
        exact isSome_lookupA_of_mem hq
      refine ⟨{ si with joinedRooms := si.joinedRooms.filter (fun r => r ≠ rid) }, ?_, ?_⟩
      · rw [hx, sockLeave, lookupA_adjustA_self]
        rw [hx] at hsi
        rw [hsi]
        rfl
      · simp only [List.mem_filter]
        refine ⟨hr, by simpa using hne⟩
    · refine ⟨si, ?_, hr⟩
      rw [sockLeave, lookupA_adjustA_ne hx]
      exact hsi

theorem inv_disconnectingH {c : Config} (sid : String) (h : Inv c) :
    Inv (disconnectingH c sid).1 := by
  unfold disconnectingH
  split
  · exact h
  next si hsi =>
    have hcov : ∀ pr ∈ c.rooms, sid ∈ keysA pr.2.members → pr.1 ∈ si.joinedRooms := by
      intro pr hpr hmem
      obtain ⟨v, hv⟩ := exists_of_mem_keysA hmem
      obtain ⟨si', hsi', hr⟩ := h.tinv.memJoined pr hpr (sid, v) hv
      rw [hsi] at hsi'
      rw [Option.some_inj.mp hsi']
      exact hr
    have hT1 := @discLoop_tinv sid c.sockets si.joinedRooms c.rooms [] h.tinv
    have hclear1 := @discLoop_clears sid c.sockets si.joinedRooms c.rooms [] h.tinv hcov
    have hT2 := @tinv_cleanWaitingRooms sid _ _ hT1
    have hclear2 := @cleanWaitingRooms_members sid _ hclear1
    refine ⟨?_, ?_⟩
    · exact nodup_keysA_eraseA h.socketsNodup
    · refine ⟨hT2.roomsNodup, hT2.memNonempty, hT2.memNodup, hT2.waitNodup, ?_⟩
      intro pr hpr q hq
      obtain ⟨si', hsi', hr⟩ := hT2.memJoined pr hpr q hq
      have hqx : q.1 ≠ sid := by
        intro hqe
        apply hclear2 pr hpr
        rw [← hqe]
        exact mem_keysA_of_mem hq
      refine ⟨si', ?_, hr⟩
      rw [lookupA_eraseA_ne hqx]
      exact hsi'

theorem inv_stateUpdateH {c : Config} (sid rid : String) (p : PartialState)
    (h : Inv c) : Inv (stateUpdateH c sid rid p).1 := by
  unfold stateUpdateH
  split
  · exact h
  next room hre =>
    split
    · exact h
    next cur hcur =>
      have hroom := mem_of_lookupA_eq_some hre
      refine ⟨h.socketsNodup, ⟨?_, ?_, ?_, ?_, ?_⟩⟩
      · exact nodup_keysA_upsertA h.tinv.roomsNodup
      · intro pr hpr
        rcases mem_upsertA hpr with hpr' | hpr'
        · rw [hpr']
          exact upsertA_ne_nil _ _ _
        · exact h.tinv.memNonempty pr hpr'
      · intro pr hpr
        rcases mem_upsertA hpr with hpr' | hpr'
        · rw [hpr']
          exact nodup_keysA_upsertA (h.tinv.memNodup (rid, room) hroom)
        · exact h.tinv.memNodup pr hpr'
      · intro pr hpr
        rcases mem_upsertA hpr with hpr' | hpr'
        · rw [hpr']
          exact h.tinv.waitNodup (rid, room) hroom
        · exact h.tinv.waitNodup pr hpr'
      · intro pr hpr q hq
        rcases mem_upsertA hpr with hpr' | hpr'
        · rw [hpr'] at hq ⊢
          rcases mem_upsertA hq with hq' | hq'
          · rw [hq']
            exact h.tinv.memJoined (rid, room) hroom (sid, cur) (mem_of_lookupA_eq_some hcur)
          · exact h.tinv.memJoined (rid, room) hroom q hq'
        · exact h.tinv.memJoined pr hpr' q hq

theorem inv_renameH {c : Config} (sid rid nm : String) (h : Inv c) :
    Inv (renameH c sid rid nm).1 := by
  unfold renameH
  split
  · exact h
  next room hre =>
    split
    · exact h
    next cur hcur =>
      have hroom := mem_of_lookupA_eq_some hre
      refine ⟨h.socketsNodup, ⟨?_, ?_, ?_, ?_, ?_⟩⟩
      · exact nodup_keysA_upsertA h.tinv.roomsNodup
      · intro pr hpr
        rcases mem_upsertA hpr with hpr' | hpr'
        · rw [hpr']
          exact upsertA_ne_nil _ _ _
        · exact h.tinv.memNonempty pr hpr'
      · intro pr hpr
        rcases mem_upsertA hpr with hpr' | hpr'
        · rw [hpr']
          exact nodup_keysA_upsertA (h.tinv.memNodup (rid, room) hroom)
        · exact h.tinv.memNodup pr hpr'
      · intro pr hpr
        rcases mem_upsertA hpr with hpr' | hpr'
        · rw [hpr']
          exact h.tinv.waitNodup (rid, room) hroom
        · exact h.tinv.waitNodup pr hpr'
      · intro pr hpr q hq
        rcases mem_upsertA hpr with hpr' | hpr'
        · rw [hpr'] at hq ⊢
          rcases mem_upsertA hq with hq' | hq'
          · rw [hq']
            exact h.tinv.memJoined (rid, room) hroom (sid, cur) (mem_of_lookupA_eq_some hcur)
          · exact h.tinv.memJoined (rid, room) hroom q hq'
        · exact h.tinv.memJoined pr hpr' q hq

theorem inv_lockRoomH {c : Config} (sid rid : String) (locked : Bool) (h : Inv c) :
    Inv (lockRoomH c sid rid locked).1 := by
  unfold lockRoomH
  split
  · exact h
  next room hre =>
    split
    · exact h
    next cur hcur =>
      split
      · have hroom := mem_of_lookupA_eq_some hre
        refine ⟨h.socketsNodup, ⟨?_, ?_, ?_, ?_, ?_⟩⟩
        · exact nodup_keysA_upsertA h.tinv.roomsNodup
        · intro pr hpr
          rcases mem_upsertA hpr with hpr' | hpr'
          · rw [hpr']
            exact h.tinv.memNonempty (rid, room) hroom
          · exact h.tinv.memNonempty pr hpr'
        · intro pr hpr
          rcases mem_upsertA hpr with hpr' | hpr'
          · rw [hpr']
            exact h.tinv.memNodup (rid, room) hroom
          · exact h.tinv.memNodup pr hpr'
        · intro pr hpr
          rcases mem_upsertA hpr with hpr' | hpr'
          · rw [hpr']
            exact h.tinv.waitNodup (rid, room) hroom
          · exact h.tinv.waitNodup pr hpr'
        · intro pr hpr q hq
          rcases mem_upsertA hpr with hpr' | hpr'
          · rw [hpr'] at hq ⊢
            exact h.tinv.memJoined (rid, room) hroom q hq
          · exact h.tinv.memJoined pr hpr' q hq
      · exact h

theorem inv_admitH {c : Config} (sid rid targetId : String) (h : Inv c) :
    Inv (admitH c sid rid targetId).1 := by
  unfold admitH
  split
  · exact h
  next room hre =>
    split
    · exact h
    next cur hcur =>
      split
      · split
        · exact h
        next wName hwait =>
          split
          next htgt =>
            obtain ⟨tsi, htsi⟩ := Option.isSome_iff_exists.mp htgt
            have hroom := mem_of_lookupA_eq_some hre
            refine ⟨?_, ⟨?_, ?_, ?_, ?_, ?_⟩⟩
            · show (keysA (setWaitingRoom (sockJoin c.sockets targetId rid) targetId none)).Nodup
              rw [setWaitingRoom, keysA_adjustA, sockJoin, keysA_adjustA]
              exact h.socketsNodup
            · exact nodup_keysA_upsertA h.tinv.roomsNodup
            · intro pr hpr
              rcases mem_upsertA hpr with hpr' | hpr'
              · rw [hpr']
                exact upsertA_ne_nil _ _ _
              · exact h.tinv.memNonempty pr hpr'
            · intro pr hpr
              rcases mem_upsertA hpr with hpr' | hpr'
              · rw [hpr']
                exact nodup_keysA_upsertA (h.tinv.memNodup (rid, room) hroom)
              · exact h.tinv.memNodup pr hpr'
            · intro pr hpr
              rcases mem_upsertA hpr with hpr' | hpr'
              · rw [hpr']
                exact nodup_keysA_eraseA (h.tinv.waitNodup (rid, room) hroom)
              · exact h.tinv.waitNodup pr hpr'
            · intro pr hpr q hq
              rcases mem_upsertA hpr with hpr' | hpr'
              · rw [hpr'] at hq ⊢
                rcases mem_upsertA hq with hq' | hq'
                · rw [hq']
                  exact setWaitingRoom_joined _ _ (sockJoin_self_joined htsi)
                · exact setWaitingRoom_joined _ _
                    (sockJoin_joined _ _ (h.tinv.memJoined (rid, room) hroom q hq'))
              · exact setWaitingRoom_joined _ _
                  (sockJoin_joined _ _ (h.tinv.memJoined pr hpr' q hq))
          next htgt => exact h
      · exact h

theorem inv_denyH {c : Config} (sid rid targetId : String) (h : Inv c) :
    Inv (denyH c sid rid targetId).1 := by
  unfold denyH
  split
  · exact h
  next room hre =>
    split
    · exact h
    next cur hcur =>
      split
      · split
        · have hroom := mem_of_lookupA_eq_some hre
          refine ⟨h.socketsNodup, ⟨?_, ?_, ?_, ?_, ?_⟩⟩
          · exact nodup_keysA_upsertA h.tinv.roomsNodup
          · intro pr hpr
            rcases mem_upsertA hpr with hpr' | hpr'
            · rw [hpr']
              exact h.tinv.memNonempty (rid, room) hroom
            · exact h.tinv.memNonempty pr hpr'
          · intro pr hpr
            rcases mem_upsertA hpr with hpr' | hpr'
            · rw [hpr']
              exact h.tinv.memNodup (rid, room) hroom
            · exact h.tinv.memNodup pr hpr'
          · intro pr hpr
            rcases mem_upsertA hpr with hpr' | hpr'
            · rw [hpr']
              exact nodup_keysA_eraseA (h.tinv.waitNodup (rid, room) hroom)
            · exact h.tinv.waitNodup pr hpr'
          · intro pr hpr q hq
            rcases mem_upsertA hpr with hpr' | hpr'
            · rw [hpr'] at hq ⊢
              exact h.tinv.memJoined (rid, room) hroom q hq
            · exact h.tinv.memJoined pr hpr' q hq
        · exact h
      · exact h

/-- Every operation preserves the structural invariant. -/
theorem inv_step (m : Nat) (c : Config) (op : Op) (h : Inv c) :
    Inv (step m c op).1 := by
  cases op with
  | connect sid => exact inv_connectH sid h
  | join sid rid nm =>
    simp only [step]
    split
    next hs => exact inv_joinH hs h
    next hs => exact h
  | signal sid p =>
    simp only [step]
    split
    · rw [signalH_fst]
      exact h
    · exact h
  | leave sid rid =>
    simp only [step]
    split
    · exact inv_leaveH sid rid h
    · exact h
  | disconnecting sid => exact inv_disconnectingH sid h
  | stateUpdate sid rid p =>
    simp only [step]
    split
    · exact inv_stateUpdateH sid rid p h
    · exact h
  | rename sid rid nm =>
    simp only [step]
    split
    · exact inv_renameH sid rid nm h
    · exact h
  | reaction sid rid emoji =>
    simp only [step]
    split
    · rw [reactionH_fst]
      exact h
    · exact h
  | chat sid rid text toId ts =>
    simp only [step]
    split
    · rw [chatH_fst]
      exact h
    · exact h
  | lockRoom sid rid locked =>
    simp only [step]
    split
    · exact inv_lockRoomH sid rid locked h
    · exact h
  | admitPeer sid rid targetId =>
    simp only [step]
    split
    · exact inv_admitH sid rid targetId h
    · exact h
  | deny sid rid targetId =>
    simp only [step]
    split
    · exact inv_denyH sid rid targetId h
    · exact h

theorem inv_startConfig : Inv startConfig := by
  refine ⟨?_, ⟨?_, ?_, ?_, ?_, ?_⟩⟩ <;> simp [startConfig, keysA]

/-- Every state reachable from process start satisfies the invariant. -/
theorem inv_run (m : Nat) (ops : List Op) : Inv (run m startConfig ops) := by
  suffices hgen : ∀ c, Inv c → Inv (run m c ops) from hgen startConfig inv_startConfig
  induction ops with
  | nil => exact fun c hc => hc
  | cons op rest ih =>
    intro c hc
    exact ih _ (inv_step m c op hc)


/-! ## Emission helper lemmas -/

theorem mem_roomSockets_of_joined {ss : List (String × SockInfo)} {rid x : String}
    (h : ∃ si, lookupA x ss = some si ∧ rid ∈ si.joinedRooms) :
    x ∈ roomSockets ss rid := by
  obtain ⟨si, hsi, hr⟩ := h
  unfold roomSockets
  refine List.mem_map.mpr ⟨(x, si), List.mem_filter.mpr ⟨mem_of_lookupA_eq_some hsi, ?_⟩, rfl⟩
  simpa using hr

theorem mem_emitToRoom {ss : List (String × SockInfo)} {rid x : String} (e : Event)
    (h : x ∈ roomSockets ss rid) : (x, e) ∈ emitToRoom ss rid e :=
  List.mem_map.mpr ⟨x, h, rfl⟩

theorem mem_emitToRoomExcept {ss : List (String × SockInfo)} {rid ex x : String} (e : Event)
    (h : x ∈ roomSockets ss rid) (hne : x ≠ ex) : (x, e) ∈ emitToRoomExcept ss rid ex e :=
  List.mem_map.mpr ⟨x, List.mem_filter.mpr ⟨h, by simpa using hne⟩, rfl⟩

theorem not_mem_emitToRoomExcept_self {ss : List (String × SockInfo)} {rid ex : String}
    {e' : Event} (e : Event) : (ex, e) ∉ emitToRoomExcept ss rid ex e' := by
  intro hmem
  obtain ⟨x, hx, hxe⟩ := List.mem_map.mp hmem
  obtain ⟨-, hxne⟩ := List.mem_filter.mp hx
  have hx1 : x = ex := congrArg Prod.fst hxe
  simp [hx1] at hxne

/-! ## Claim C2: join into a full room -/

/-- C2: a join targeting an existing room whose member count has reached the
capacity answers the joining session with the room-full error and changes
nothing: the whole state (members, waiting, locked of every room) is
returned untouched and the only emission is the error to the joiner.  No
hypothesis constrains `room.locked`, so this holds in particular for a room
that is both locked and full: the capacity check precedes the lock check and
the joiner is not queued. -/
theorem C2_room_full (m : Nat) (c : Config) (sid rid : String) (nm : Option String)
    (room : RoomInfo) (hs : (lookupA sid c.sockets).isSome = true)
    (hr : lookupA rid c.rooms = some room) (hfull : m ≤ room.members.length) :
    step m c (Op.join sid rid nm) = (c, [(sid, Event.errorFull)]) := by
  simp only [step]
  rw [if_pos hs]
  simp only [joinH, hr, Option.getD_some]
  rw [if_pos hfull]

/-- Witness for C2 at a concrete input: capacity 1, room `R` holding `A`,
a join by the connected socket `B` is rejected and mutates nothing. -/
theorem C2_witness :
    step 1 (run 1 startConfig [Op.connect "A", Op.join "A" "R" (some "a"), Op.connect "B"])
        (Op.join "B" "R" none) =
      (run 1 startConfig [Op.connect "A", Op.join "A" "R" (some "a"), Op.connect "B"],
       [("B", Event.errorFull)]) :=
  C2_room_full 1 _ "B" "R" none
    { members := [("A", stHostA)], locked := false, waiting := [] }
    (by decide) (by decide) (by decide)

/-! ## Claim C1: the capacity invariant -/

/-- C1 counterexample: after `admitOverflowTrace` with `MAX_ROOM_SIZE = 2`,
room `R` holds three members — `admit` performs no capacity check, so the
claimed invariant `|members| ≤ MAX_ROOM_SIZE` fails, and in particular an
admit can push the member count past the cap. -/
theorem C1_counterexample :
    2 < ((lookupA "R" (run 2 startConfig admitOverflowTrace).rooms).getD freshRoom).members.length := by
  decide

/-- C1 amended: the capacity bound is kept by every `join` (a join into a
room at or above the cap is rejected leaving membership unchanged), but only
by joins — `admit` can exceed it, as the counterexample shows. -/
theorem C1_amended_join_cap (m : Nat) (c : Config) (sid rid : String) (nm : Option String)
    (hcap : ∀ pr ∈ c.rooms, pr.2.members.length ≤ m) :
    ∀ pr ∈ (step m c (Op.join sid rid nm)).1.rooms, pr.2.members.length ≤ m := by
  intro pr hpr
  simp only [step] at hpr
  split at hpr
  · simp only [joinH] at hpr
    split at hpr
    next hfull => exact hcap pr hpr
    next hfull =>
      split at hpr
      next hlock =>
        rcases mem_upsertA hpr with hpr' | hpr'
        · rw [hpr']
          show ((lookupA rid c.rooms).getD freshRoom).members.length ≤ m
          cases hre : lookupA rid c.rooms with
          | none => simp [freshRoom]
          | some room =>
            simp only [Option.getD_some]
            exact hcap (rid, room) (mem_of_lookupA_eq_some hre)
        · exact hcap pr hpr'
      next hlock =>
        rcases mem_upsertA hpr with hpr' | hpr'
        · rw [hpr']
          show (upsertA sid _ ((lookupA rid c.rooms).getD freshRoom).members).length ≤ m
          rw [length_upsertA]
          have hlt : ((lookupA rid c.rooms).getD freshRoom).members.length < m :=
            Nat.lt_of_not_le hfull
          split
          · exact Nat.le_of_lt hlt
          · exact hlt
        · exact hcap pr hpr'
  · exact hcap pr hpr

/-- Witness for C1 amended at a concrete input: a capped table stays capped
after a join. -/
theorem C1_witness :
    ("R", { members := [("A", stHostA), ("B", stGuestB)], locked := false,
            waiting := [] : RoomInfo }).2.members.length ≤ 10 :=
  C1_amended_join_cap 10 (run 10 startConfig
      [Op.connect "A", Op.join "A" "R" (some "a"), Op.connect "B"])
    "B" "R" (some "b") (by decide)
    ("R", { members := [("A", stHostA), ("B", stGuestB)], locked := false, waiting := [] })
    (by decide)

/-! ## Claim C3: role assignment and the one-host property -/

/-- C3 counterexample: after `hostLeaveTrace` room `R` still has a member,
but none of its members holds the host role — exactly-one-host is not
preserved when the host leaves. -/
theorem C3_counterexample :
    ((lookupA "R" (run 10 startConfig hostLeaveTrace).rooms).getD freshRoom).members ≠ [] ∧
    (((lookupA "R" (run 10 startConfig hostLeaveTrace).rooms).getD freshRoom).members.filter
      (fun q => q.2.role = Role.host)).length = 0 := by
  constructor
  · decide
  · decide

/-- C3 amended: the assignment rule holds — a join that enters the
active-member branch stores a state whose role is host exactly when the
member map was empty at that moment (so the first active member is the
host), and an admit always stores role guest — but exactly-one-host is not
an invariant of every operation: it is broken by the host leaving
(counterexample), by a member re-joining, and by a state-update whose
partial carries a role. -/
theorem C3_amended_roles :
    (∀ (m : Nat) (c : Config) (sid rid : String) (nm : Option String),
      (lookupA sid c.sockets).isSome = true →
      ((lookupA rid c.rooms).getD freshRoom).members.length < m →
      ¬(((lookupA rid c.rooms).getD freshRoom).locked = true ∧
        0 < ((lookupA rid c.rooms).getD freshRoom).members.length) →
      lookupA sid ((lookupA rid (step m c (Op.join sid rid nm)).1.rooms).getD freshRoom).members
        = some { name := safeName nm sid, muted := false, videoOn := true,
                 handRaised := false,
                 role := if ((lookupA rid c.rooms).getD freshRoom).members.length = 0
                         then Role.host else Role.guest }) ∧
    (∀ (m : Nat) (c : Config) (sid rid targetId : String) (room : RoomInfo)
        (cur : MemberState) (wName : String),
      (lookupA sid c.sockets).isSome = true →
      lookupA rid c.rooms = some room →
      lookupA sid room.members = some cur →
      cur.role = Role.host →
      lookupA targetId room.waiting = some wName →
      (lookupA targetId c.sockets).isSome = true →
      lookupA targetId
          ((lookupA rid (step m c (Op.admitPeer sid rid targetId)).1.rooms).getD freshRoom).members
        = some { name := wName, muted := false, videoOn := true, handRaised := false,
                 role := Role.guest }) := by
  constructor
  · intro m c sid rid nm hs hcap hnw
    simp only [step]
    rw [if_pos hs]
    simp only [joinH]
    rw [if_neg (Nat.not_le.mpr hcap), if_neg hnw]
    simp only [lookupA_upsertA_self, Option.getD_some]
  · intro m c sid rid targetId room cur wName hs hr hcur hrole hwait htgt
    simp only [step]
    rw [if_pos hs]
    simp only [admitH, hr, hcur, hwait]
    rw [if_pos hrole, if_pos htgt]
    simp only [lookupA_upsertA_self, Option.getD_some]

/-- Witness for C3 amended: the first joiner of an empty room is stored as
host, and the admitted waiting session of `waitingOps` is stored as guest. -/
theorem C3_witness :
    (lookupA "A" ((lookupA "R"
        (step 10 (run 10 startConfig [Op.connect "A"]) (Op.join "A" "R" (some "a"))).1.rooms).getD
        freshRoom).members
      = some { name := safeName (some "a") "A", muted := false, videoOn := true,
               handRaised := false,
               role := if ((lookupA "R" (run 10 startConfig [Op.connect "A"]).rooms).getD
                           freshRoom).members.length = 0
                       then Role.host else Role.guest }) ∧
    (lookupA "W" ((lookupA "R"
        (step 10 (run 10 startConfig waitingOps) (Op.admitPeer "A" "R" "W")).1.rooms).getD
        freshRoom).members
      = some { name := "w", muted := false, videoOn := true, handRaised := false,
               role := Role.guest }) :=
  ⟨C3_amended_roles.1 10 (run 10 startConfig [Op.connect "A"]) "A" "R" (some "a")
      (by decide) (by decide) (by decide),
   C3_amended_roles.2 10 (run 10 startConfig waitingOps) "A" "R" "W"
      { members := [("A", stHostA)], locked := true, waiting := [("W", "w")] }
      stHostA "w" (by decide) (by decide) (by decide) (by decide) (by decide) (by decide)⟩

/-! ## Claim C4: one room per session -/

/-- C4 counterexample: after `twoRoomsTrace` the session `A` is an active
member of `R1` and of `R2` at the same time — a SessionId is not confined
to the members of at most one room. -/
theorem C4_counterexample :
    (lookupA "A" ((lookupA "R1" (run 10 startConfig twoRoomsTrace).rooms).getD
        freshRoom).members).isSome = true ∧
    (lookupA "A" ((lookupA "R2" (run 10 startConfig twoRoomsTrace).rooms).getD
        freshRoom).members).isSome = true := by
  constructor
  · decide
  · decide

/-- C4 amended: per-map uniqueness does hold — in every reachable state each
room's members map and waiting map bind a SessionId at most once (their key
lists are duplicate-free) — but a session can be in the members of several
rooms at once (counterexample), in the waiting of several rooms, and even in
members and waiting of the same room (the C5 counterexample trace). -/
theorem C4_amended_unique_keys (m : Nat) (ops : List Op) :
    ∀ pr ∈ (run m startConfig ops).rooms,
      (keysA pr.2.members).Nodup ∧ (keysA pr.2.waiting).Nodup :=
  fun pr hpr => ⟨(inv_run m ops).tinv.memNodup pr hpr, (inv_run m ops).tinv.waitNodup pr hpr⟩

/-- Witness for C4 amended at a concrete reachable room with a member and a
waiting entry. -/
theorem C4_witness :
    (keysA (({ members := [("A", stHostA)], locked := true,
               waiting := [("W", "w")] } : RoomInfo)).members).Nodup ∧
    (keysA (({ members := [("A", stHostA)], locked := true,
               waiting := [("W", "w")] } : RoomInfo)).waiting).Nodup :=
  C4_amended_unique_keys 10 waitingOps
    ("R", { members := [("A", stHostA)], locked := true, waiting := [("W", "w")] })
    (by decide)

/-! ## Claim C10: stored rooms always have a member -/

/-- C10: every room present in the table of any reachable state has at least
one active member: a room is only stored when a member is inserted or when a
waiting entry is added while members is non-empty, and leave/disconnect
delete a room in the same step its member map empties, so a waiting-only
room never persists. -/
theorem C10_room_nonempty (m : Nat) (ops : List Op) :
    ∀ pr ∈ (run m startConfig ops).rooms, pr.2.members ≠ [] :=
  fun pr hpr => (inv_run m ops).tinv.memNonempty pr hpr

/-- Witness for C10 at a concrete reachable room. -/
theorem C10_witness :
    (({ members := [("A", stHostA)], locked := false, waiting := [] } : RoomInfo)).members ≠ [] :=
  C10_room_nonempty 10 oneMemberOps
    ("R", { members := [("A", stHostA)], locked := false, waiting := [] })
    (by decide)

/-! ## Claim C5: join into a locked room -/

/-- C5 counterexample: after `rejoinTrace` — a trace containing no admit —
the queued session `W` is an active member of `R` (and still sits in its
waiting map): a waiting session can enter members through a plain re-join
once the host unlocks the room, not only through an explicit admit. -/
theorem C5_counterexample :
    (lookupA "W" ((lookupA "R" (run 10 startConfig rejoinTrace).rooms).getD
        freshRoom).members).isSome = true ∧
    (lookupA "W" ((lookupA "R" (run 10 startConfig rejoinTrace).rooms).getD
        freshRoom).waiting).isSome = true := by
  constructor
  · decide
  · decide

/-- C5 amended: in any reachable state, a join into an existing locked room
with `0 < |members| < MAX_ROOM_SIZE` stores the joiner with its sanitized
name in waiting — members, locked and the other waiting entries unchanged —
answers the joiner with `waiting`, and sends the full updated waiting list
to every active member of the room; the session then stays out of members
until an explicit admit unless it re-joins after the room is unlocked
(counterexample). -/
theorem C5_amended_waiting (m : Nat) (ops : List Op) (sid rid : String)
    (nm : Option String) (room : RoomInfo)
    (hs : (lookupA sid (run m startConfig ops).sockets).isSome = true)
    (hr : lookupA rid (run m startConfig ops).rooms = some room)
    (hlock : room.locked = true) (hpos : 0 < room.members.length)
    (hcap : room.members.length < m) :
    lookupA rid (step m (run m startConfig ops) (Op.join sid rid nm)).1.rooms =
      some { room with waiting := upsertA sid (safeName nm sid) room.waiting } ∧
    (sid, Event.waitingAck) ∈ (step m (run m startConfig ops) (Op.join sid rid nm)).2 ∧
    ∀ q ∈ room.members,
      (q.1, Event.waitingList (upsertA sid (safeName nm sid) room.waiting)) ∈
        (step m (run m startConfig ops) (Op.join sid rid nm)).2 := by
  have hInv := inv_run m ops
  simp only [step]
  rw [if_pos hs]
  simp only [joinH, hr, Option.getD_some]
  rw [if_neg (Nat.not_le.mpr hcap), if_pos (And.intro hlock hpos)]
  refine ⟨lookupA_upsertA_self _ _ _, List.mem_cons_self _ _, ?_⟩
  intro q hq
  apply List.mem_cons_of_mem
  apply mem_emitToRoom
  apply mem_roomSockets_of_joined
  exact setWaitingRoom_joined q.1 rid
    (hInv.tinv.memJoined (rid, room) (mem_of_lookupA_eq_some hr) q hq)

/-- Witness for C5 amended: the connected socket `W` joins the locked room of
`lockedRoomOps`; it lands in waiting, is told to wait, and member `A`
receives the updated waiting list. -/
theorem C5_witness :
    (lookupA "R" (step 10 (run 10 startConfig lockedRoomOps)
        (Op.join "W" "R" (some "w"))).1.rooms =
      some { members := [("A", stHostA)], locked := true,
             waiting := upsertA "W" (safeName (some "w") "W") [] }) ∧
    (("W", Event.waitingAck) ∈
      (step 10 (run 10 startConfig lockedRoomOps) (Op.join "W" "R" (some "w"))).2) ∧
    (("A", Event.waitingList (upsertA "W" (safeName (some "w") "W") [])) ∈
      (step 10 (run 10 startConfig lockedRoomOps) (Op.join "W" "R" (some "w"))).2) := by
  have h5 := C5_amended_waiting 10 lockedRoomOps "W" "R" (some "w")
    { members := [("A", stHostA)], locked := true, waiting := [] }
    (by decide) (by decide) (by decide) (by decide) (by decide)
  exact ⟨h5.1, h5.2.1, h5.2.2 ("A", stHostA) (by decide)⟩

/-! ## Claim C6: signal routing -/

/-- C6: in any reachable state, a signal from a connected session mutates no
state, and its messages are exactly: one message to the stated target
carrying the unchanged payload tagged with the sender, when the stated room
exists and the target is currently one of its members; and nothing at all in
every other case (unknown room, target not an active member — e.g. still
waiting), with no error ever sent back to the sender. -/
theorem C6_signal_routing (m : Nat) (ops : List Op) (sid : String) (p : SignalPayload)
    (hs : (lookupA sid (run m startConfig ops).sockets).isSome = true) :
    (step m (run m startConfig ops) (Op.signal sid p)).1 = run m startConfig ops ∧
    (step m (run m startConfig ops) (Op.signal sid p)).2 =
      (match lookupA p.roomId (run m startConfig ops).rooms with
       | none => []
       | some room =>
         if (lookupA p.toId room.members).isSome = true
         then [(p.toId, Event.signalMsg p sid)] else []) := by
  have hInv := inv_run m ops
  simp only [step]
  rw [if_pos hs]
  refine ⟨signalH_fst _ _ _, ?_⟩
  cases hre : lookupA p.roomId (run m startConfig ops).rooms with
  | none => simp [signalH, hre]
  | some room =>
    simp only [signalH, hre]
    by_cases hmem : (lookupA p.toId room.members).isSome = true
    · rw [if_pos hmem, if_pos hmem]
      obtain ⟨w, hw⟩ := Option.isSome_iff_exists.mp hmem
      obtain ⟨si, hsi, -⟩ := hInv.tinv.memJoined (p.roomId, room) (mem_of_lookupA_eq_some hre)
        (p.toId, w) (mem_of_lookupA_eq_some hw)
      show emitToSocket (run m startConfig ops).sockets p.toId (Event.signalMsg p sid) = _
      unfold emitToSocket
      rw [if_pos (by rw [hsi]; rfl)]
    · rw [if_neg hmem, if_neg hmem]

/-- Witness for C6 at a concrete input: member `A` signals member `B` in the
two-member room; the state is unchanged and exactly one tagged message
reaches `B`. -/
theorem C6_witness :
    (step 10 (run 10 startConfig twoMemberOps)
        (Op.signal "A" { roomId := "R", kind := "offer", body := "sdp1", toId := "B" })).1 =
      run 10 startConfig twoMemberOps ∧
    (step 10 (run 10 startConfig twoMemberOps)
        (Op.signal "A" { roomId := "R", kind := "offer", body := "sdp1", toId := "B" })).2 =
      (match lookupA "R" (run 10 startConfig twoMemberOps).rooms with
       | none => []
       | some room =>
         if (lookupA "B" room.members).isSome = true
         then [("B", Event.signalMsg
                { roomId := "R", kind := "offer", body := "sdp1", toId := "B" } "A")]
         else []) :=
  C6_signal_routing 10 twoMemberOps "A"
    { roomId := "R", kind := "offer", body := "sdp1", toId := "B" } (by decide)

/-! ## Further lemmas about the disconnect loops -/

theorem eraseA_of_not_mem_keysA {β : Type} {k : String} {l : List (String × β)}
    (h : k ∉ keysA l) : eraseA k l = l := by
  induction l with
  | nil => rfl
  | cons hd tl ih =>
    obtain ⟨a, b⟩ := hd
    simp only [keysA, List.map_cons, List.mem_cons] at h
    push_neg at h
    rw [eraseA, if_neg (fun hc => h.1 hc.symm), ih h.2]

theorem eraseA_eq_nil_cases {β : Type} {k : String} {l : List (String × β)}
    (h : eraseA k l = []) : l = [] ∨ ∃ v, l = [(k, v)] := by
  cases l with
  | nil => exact Or.inl rfl
  | cons hd tl =>
    obtain ⟨a, b⟩ := hd
    simp only [eraseA] at h
    by_cases hk : a = k
    · rw [if_pos hk] at h
      subst h
      exact Or.inr ⟨b, by rw [hk]⟩
    · rw [if_neg hk] at h
      simp at h

theorem lookupA_removeFromRoom_ne {sid rid x : String} (hx : x ≠ rid)
    (rooms : List (String × RoomInfo)) :
    lookupA x (removeFromRoom sid rooms rid) = lookupA x rooms := by
  unfold removeFromRoom
  split
  · rfl
  next room hre =>
    split
    · exact lookupA_eraseA_ne hx rooms
    · exact lookupA_upsertA_ne hx _ rooms

theorem lookupA_removeFromRoom_self {sid rid : String} {rooms : List (String × RoomInfo)}
    (hnd : (keysA rooms).Nodup) :
    lookupA rid (removeFromRoom sid rooms rid) =
      (lookupA rid rooms).bind (fun room =>
        if (eraseA sid room.members).length = 0 then none
        else some { room with members := eraseA sid room.members }) := by
  unfold removeFromRoom
  split
  next hre =>
    rw [hre]
    rfl
  next room hre =>
    rw [hre, Option.some_bind]
    by_cases hlen : (eraseA sid room.members).length = 0
    · rw [if_pos hlen, if_pos hlen]
      exact lookupA_eraseA_self hnd
    · rw [if_neg hlen, if_neg hlen]
      exact lookupA_upsertA_self _ _ _

/-- The member loop of `disconnecting`, pointwise: a room id in the loop list
gets the session erased from its members (the room deleted when that empties);
every other entry is untouched. -/
theorem discLoop_lookup {sid : String} {ss : List (String × SockInfo)}
    (rids : List String) (rooms : List (String × RoomInfo)) (msgs : List Msg)
    (hT : TInv rooms ss) (x : String) :
    lookupA x (discLoop sid ss (rooms, msgs) rids).1 =
      if x ∈ rids then
        (lookupA x rooms).bind (fun room =>
          if (eraseA sid room.members).length = 0 then none
          else some { room with members := eraseA sid room.members })
      else lookupA x rooms := by
  induction rids generalizing rooms msgs with
  | nil => simp [discLoop]
  | cons rid rest ih =>
    simp only [discLoop]
    rw [ih _ _ (tinv_removeFromRoom hT)]
    by_cases hx : x = rid
    · subst hx
      rw [if_pos (List.mem_cons_self _ _)]
      by_cases hxr : x ∈ rest
      · rw [if_pos hxr, lookupA_removeFromRoom_self hT.roomsNodup]
        cases hre : lookupA x rooms with
        | none => rfl
        | some room =>
          rw [Option.some_bind]
          by_cases hlen : (eraseA sid room.members).length = 0
          · rw [if_pos hlen]
            rfl
          · rw [if_neg hlen, Option.some_bind]
            have hroom := mem_of_lookupA_eq_some hre
            have hnm : sid ∉ keysA (eraseA sid room.members) := by
              rw [← lookupA_eq_none_iff_not_mem_keysA]
              exact lookupA_eraseA_self (hT.memNodup (x, room) hroom)
            have herase : eraseA sid (eraseA sid room.members) = eraseA sid room.members :=
              eraseA_of_not_mem_keysA hnm
            show (if (eraseA sid (eraseA sid room.members)).length = 0 then none
                  else some { room with
                    members := eraseA sid (eraseA sid room.members) }) = _
            rw [herase, if_neg hlen]
      · rw [if_neg hxr, lookupA_removeFromRoom_self hT.roomsNodup]
    · rw [lookupA_removeFromRoom_ne hx]
      by_cases hxr : x ∈ rest
      · rw [if_pos hxr, if_pos (List.mem_cons_of_mem _ hxr)]
      · rw [if_neg hxr, if_neg (by simp [hx, hxr])]

theorem discLoop_msgs_mono {sid : String} {ss : List (String × SockInfo)}
    (rids : List String) (rooms : List (String × RoomInfo)) (msgs : List Msg)
    {msg : Msg} (h : msg ∈ msgs) : msg ∈ (discLoop sid ss (rooms, msgs) rids).2 := by
  induction rids generalizing rooms msgs with
  | nil => exact h
  | cons rid rest ih =>
    simp only [discLoop]
    exact ih _ _ (List.mem_append_left _ h)

/-- Every transport room in the loop list receives its `peer-left` batch. -/
theorem discLoop_msgs_cover {sid : String} {ss : List (String × SockInfo)}
    (rids : List String) (rooms : List (String × RoomInfo)) (msgs : List Msg)
    {rid : String} {msg : Msg} (hr : rid ∈ rids)
    (h : msg ∈ emitToRoomExcept ss rid sid (Event.peerLeft sid)) :
    msg ∈ (discLoop sid ss (rooms, msgs) rids).2 := by
  induction rids generalizing rooms msgs with
  | nil => simp at hr
  | cons rid' rest ih =>
    simp only [discLoop]
    rcases List.mem_cons.mp hr with he | hm
    · subst he
      exact discLoop_msgs_mono _ _ _ (List.mem_append_right _ h)
    · exact ih _ _ hm

theorem lookupA_cleanWaitingRooms (sid x : String) (rooms : List (String × RoomInfo)) :
    lookupA x (cleanWaitingRooms sid rooms) =
      (lookupA x rooms).map (fun room =>
        if (lookupA sid room.waiting).isSome = true
        then { room with waiting := eraseA sid room.waiting } else room) := by
  induction rooms with
  | nil => rfl
  | cons hd tl ih =>
    obtain ⟨a, room⟩ := hd
    simp only [cleanWaitingRooms, List.map_cons] at ih ⊢
    by_cases hw : (lookupA sid room.waiting).isSome = true
    · rw [if_pos hw]
      by_cases ha : a = x
      · subst ha
        simp [lookupA, hw]
      · simp only [lookupA, if_neg ha]
        exact ih
    · rw [if_neg hw]
      by_cases ha : a = x
      · subst ha
        simp [lookupA, hw]
      · simp only [lookupA, if_neg ha]
        exact ih

/-- Every room holding the session in its waiting map contributes its
waiting-list update to the second loop's emissions. -/
theorem mem_cleanWaitingMsgs {sid : String} {ss : List (String × SockInfo)}
    {rooms : List (String × RoomInfo)} {pr : String × RoomInfo} (hpr : pr ∈ rooms)
    (hw : (lookupA sid pr.2.waiting).isSome = true) {msg : Msg}
    (h : msg ∈ emitToRoom ss pr.1 (Event.waitingList (eraseA sid pr.2.waiting))) :
    msg ∈ cleanWaitingMsgs sid ss rooms := by
  induction rooms with
  | nil => simp at hpr
  | cons hd rest ih =>
    rcases List.mem_cons.mp hpr with he | hm
    · subst he
      simp only [cleanWaitingMsgs, if_pos hw]
      exact List.mem_append_left _ h
    · simp only [cleanWaitingMsgs]
      split
      · exact List.mem_append_right _ (ih hm)
      · exact ih hm

/-! ## Claim C7: leave versus disconnect -/

/-- C7 counterexample: after `leaveWaitingTrace` the waiting session `W`,
which sent an explicit leave for room `R`, is still in `R`'s waiting map —
the leave handler never touches `waiting`, so leave and disconnect do not
share the claimed per-room effect. -/
theorem C7_counterexample :
    (lookupA "W" ((lookupA "R" (run 10 startConfig leaveWaitingTrace).rooms).getD
        freshRoom).waiting).isSome = true := by
  decide

/-- C7 amended: an explicit leave removes the session only from the room's
members (the room is deleted when its member map empties, discarding its
waiting set; otherwise the waiting map is returned unchanged), and its only
emission is an unconditional `peer-left` to the remaining sockets of the
transport room; an abrupt disconnect has the fuller per-room effect the
claim ascribed to both: afterwards the session occurs in no room's members
and no room's waiting; for each room it was in, the membership is erased
with `peer-left` broadcast to the remaining active members, the room is
deleted exactly when its member map empties (its waiting set discarded
with it), the surviving rooms also lose the session's waiting entry, and
each surviving room that held such an entry has the updated waiting list
broadcast to its remaining active members. -/
theorem C7_amended_leave_disconnect :
    (∀ (m : Nat) (ops : List Op) (sid rid : String) (room : RoomInfo),
      (lookupA sid (run m startConfig ops).sockets).isSome = true →
      lookupA rid (run m startConfig ops).rooms = some room →
      (if (eraseA sid room.members).length = 0
       then lookupA rid (step m (run m startConfig ops) (Op.leave sid rid)).1.rooms = none
       else lookupA rid (step m (run m startConfig ops) (Op.leave sid rid)).1.rooms =
         some { room with members := eraseA sid room.members }) ∧
      (step m (run m startConfig ops) (Op.leave sid rid)).2 =
        emitToRoomExcept (sockLeave (run m startConfig ops).sockets sid rid) rid sid
          (Event.peerLeft sid)) ∧
    (∀ (m : Nat) (ops : List Op) (sid : String),
      (lookupA sid (run m startConfig ops).sockets).isSome = true →
      (∀ pr ∈ (step m (run m startConfig ops) (Op.disconnecting sid)).1.rooms,
        sid ∉ keysA pr.2.members ∧ lookupA sid pr.2.waiting = none) ∧
      (∀ (rid : String) (room : RoomInfo),
        lookupA rid (run m startConfig ops).rooms = some room →
        (if (eraseA sid room.members).length = 0
         then lookupA rid
            (step m (run m startConfig ops) (Op.disconnecting sid)).1.rooms = none
         else lookupA rid
            (step m (run m startConfig ops) (Op.disconnecting sid)).1.rooms =
          some { room with
            members := eraseA sid room.members,
            waiting := eraseA sid room.waiting }) ∧
        (sid ∈ keysA room.members →
          ∀ q ∈ room.members, q.1 ≠ sid →
            (q.1, Event.peerLeft sid) ∈
              (step m (run m startConfig ops) (Op.disconnecting sid)).2) ∧
        ((eraseA sid room.members).length ≠ 0 →
          (lookupA sid room.waiting).isSome = true →
          ∀ q ∈ room.members, q.1 ≠ sid →
            (q.1, Event.waitingList (eraseA sid room.waiting)) ∈
              (step m (run m startConfig ops) (Op.disconnecting sid)).2))) := by
  constructor
  · intro m ops sid rid room hs hr
    have hInv := inv_run m ops
    simp only [step]
    rw [if_pos hs]
    constructor
    · simp only [leaveH, removeFromRoom, hr]
      by_cases hlen : (eraseA sid room.members).length = 0
      · rw [if_pos hlen, if_pos hlen]
        exact lookupA_eraseA_self hInv.tinv.roomsNodup
      · rw [if_neg hlen, if_neg hlen]
        exact lookupA_upsertA_self _ _ _
    · rfl
  · intro m ops sid hs
    have hInv := inv_run m ops
    obtain ⟨si, hsi⟩ := Option.isSome_iff_exists.mp hs
    have hcov : ∀ pr0 ∈ (run m startConfig ops).rooms,
        sid ∈ keysA pr0.2.members → pr0.1 ∈ si.joinedRooms := by
      intro pr0 hpr0 hmem
      obtain ⟨v, hv⟩ := exists_of_mem_keysA hmem
      obtain ⟨si', hsi', hr'⟩ := hInv.tinv.memJoined pr0 hpr0 (sid, v) hv
      rw [hsi] at hsi'
      rw [Option.some_inj.mp hsi']
      exact hr'
    have hT1 := @discLoop_tinv sid (run m startConfig ops).sockets si.joinedRooms
      (run m startConfig ops).rooms [] hInv.tinv
    have h1 := @discLoop_clears sid (run m startConfig ops).sockets si.joinedRooms
      (run m startConfig ops).rooms [] hInv.tinv hcov
    constructor
    · intro pr hpr
      simp only [step, disconnectingH, hsi] at hpr
      exact ⟨cleanWaitingRooms_members h1 pr hpr, cleanWaitingRooms_clears hT1 pr hpr⟩
    · intro rid room hre
      have hroom := mem_of_lookupA_eq_some hre
      refine ⟨?_, ?_, ?_⟩
      · -- deletion when members empty, uniform erasure otherwise
        simp only [step, disconnectingH, hsi]
        rw [lookupA_cleanWaitingRooms, discLoop_lookup _ _ _ hInv.tinv]
        by_cases hlen : (eraseA sid room.members).length = 0
        · rw [if_pos hlen]
          have hmem : sid ∈ keysA room.members := by
            rcases eraseA_eq_nil_cases (List.length_eq_zero.mp hlen) with hnil | ⟨v, hv⟩
            · exact absurd hnil (hInv.tinv.memNonempty (rid, room) hroom)
            · rw [hv]
              simp [keysA]
          rw [if_pos (hcov (rid, room) hroom hmem), hre, Option.some_bind, if_pos hlen]
          rfl
        · rw [if_neg hlen]
          by_cases hj : rid ∈ si.joinedRooms
          · rw [if_pos hj, hre, Option.some_bind, if_neg hlen, Option.map_some']
            by_cases hw : (lookupA sid room.waiting).isSome = true
            · rw [if_pos hw]
            · rw [if_neg hw]
              have hwe : eraseA sid room.waiting = room.waiting := by
                apply eraseA_of_not_mem_keysA
                rw [← lookupA_eq_none_iff_not_mem_keysA]
                cases hlw : lookupA sid room.waiting with
                | none => rfl
                | some w => exact absurd (by simp [hlw]) hw
              rw [hwe]
          · rw [if_neg hj, hre, Option.map_some']
            have hnm : sid ∉ keysA room.members :=
              fun hmem => hj (hcov (rid, room) hroom hmem)
            have hme : eraseA sid room.members = room.members :=
              eraseA_of_not_mem_keysA hnm
            by_cases hw : (lookupA sid room.waiting).isSome = true
            · rw [if_pos hw, hme]
            · rw [if_neg hw]
              have hwe : eraseA sid room.waiting = room.waiting := by
                apply eraseA_of_not_mem_keysA
                rw [← lookupA_eq_none_iff_not_mem_keysA]
                cases hlw : lookupA sid room.waiting with
                | none => rfl
                | some w => exact absurd (by simp [hlw]) hw
              rw [hme, hwe]
      · -- peer-left to every remaining member of every room the session was in
        intro hmem q hq hqs
        simp only [step, disconnectingH, hsi]
        apply List.mem_append_left
        apply discLoop_msgs_cover _ _ _ (hcov (rid, room) hroom hmem)
        exact mem_emitToRoomExcept _ (mem_roomSockets_of_joined
          (hInv.tinv.memJoined (rid, room) hroom q hq)) hqs
      · -- updated waiting list to every remaining member of a surviving room
        intro hlen hw q hq hqs
        simp only [step, disconnectingH, hsi]
        apply List.mem_append_right
        have hexists : ∃ room1,
            lookupA rid (discLoop sid (run m startConfig ops).sockets
              ((run m startConfig ops).rooms, []) si.joinedRooms).1 = some room1 ∧
            room1.waiting = room.waiting := by
          rw [discLoop_lookup _ _ _ hInv.tinv]
          by_cases hj : rid ∈ si.joinedRooms
          · rw [if_pos hj, hre, Option.some_bind, if_neg hlen]
            exact ⟨{ room with members := eraseA sid room.members }, rfl, rfl⟩
          · rw [if_neg hj, hre]
            exact ⟨room, rfl, rfl⟩
        obtain ⟨room1, hl1, hw1⟩ := hexists
        have hmsg : (q.1, Event.waitingList (eraseA sid room.waiting)) ∈
            emitToRoom (run m startConfig ops).sockets rid
              (Event.waitingList (eraseA sid ((rid, room1) : String × RoomInfo).2.waiting)) := by
          show _ ∈ emitToRoom _ rid (Event.waitingList (eraseA sid room1.waiting))
          rw [hw1]
          exact mem_emitToRoom _ (mem_roomSockets_of_joined
            (hInv.tinv.memJoined (rid, room) hroom q hq))
        exact mem_cleanWaitingMsgs (mem_of_lookupA_eq_some hl1)
          (by show (lookupA sid room1.waiting).isSome = true; rw [hw1]; exact hw) hmsg

/-- Witness for C7 amended: `B` leaves the two-member room (membership
shrinks to `A`, waiting untouched, one peer-left broadcast); a disconnect of
`B` from the same room erases its membership with `A` notified by
`peer-left` and leaves a room containing `B` in neither members nor
waiting; and a disconnect of the queued session of `waitingOps` broadcasts
the emptied waiting list to the remaining member `A`. -/
theorem C7_witness :
    ((if (eraseA "B" [("A", stHostA), ("B", stGuestB)]).length = 0
      then lookupA "R" (step 10 (run 10 startConfig twoMemberOps) (Op.leave "B" "R")).1.rooms
        = none
      else lookupA "R" (step 10 (run 10 startConfig twoMemberOps) (Op.leave "B" "R")).1.rooms
        = some { members := eraseA "B" [("A", stHostA), ("B", stGuestB)], locked := false,
                 waiting := [] }) ∧
     (step 10 (run 10 startConfig twoMemberOps) (Op.leave "B" "R")).2 =
       emitToRoomExcept (sockLeave (run 10 startConfig twoMemberOps).sockets "B" "R") "R" "B"
         (Event.peerLeft "B")) ∧
    ("B" ∉ keysA (({ members := [("A", stHostA)], locked := false,
                     waiting := [] } : RoomInfo)).members ∧
     lookupA "B" (({ members := [("A", stHostA)], locked := false,
                     waiting := [] } : RoomInfo)).waiting = none) ∧
    (if (eraseA "B" [("A", stHostA), ("B", stGuestB)]).length = 0
     then lookupA "R"
        (step 10 (run 10 startConfig twoMemberOps) (Op.disconnecting "B")).1.rooms = none
     else lookupA "R"
        (step 10 (run 10 startConfig twoMemberOps) (Op.disconnecting "B")).1.rooms =
      some { members := eraseA "B" [("A", stHostA), ("B", stGuestB)], locked := false,
             waiting := eraseA "B" [] }) ∧
    (("A", Event.peerLeft "B") ∈
      (step 10 (run 10 startConfig twoMemberOps) (Op.disconnecting "B")).2) ∧
    (("A", Event.waitingList (eraseA "W" [("W", "w")])) ∈
      (step 10 (run 10 startConfig waitingOps) (Op.disconnecting "W")).2) := by
  refine ⟨?_, ?_, ?_, ?_, ?_⟩
  · exact C7_amended_leave_disconnect.1 10 twoMemberOps "B" "R"
      { members := [("A", stHostA), ("B", stGuestB)], locked := false, waiting := [] }
      (by decide) (by decide)
  · exact (C7_amended_leave_disconnect.2 10 twoMemberOps "B" (by decide)).1
      ("R", { members := [("A", stHostA)], locked := false, waiting := [] }) (by decide)
  · exact ((C7_amended_leave_disconnect.2 10 twoMemberOps "B" (by decide)).2 "R"
      { members := [("A", stHostA), ("B", stGuestB)], locked := false, waiting := [] }
      (by decide)).1
  · exact ((C7_amended_leave_disconnect.2 10 twoMemberOps "B" (by decide)).2 "R"
      { members := [("A", stHostA), ("B", stGuestB)], locked := false, waiting := [] }
      (by decide)).2.1 (by decide) ("A", stHostA) (by decide) (by decide)
  · exact ((C7_amended_leave_disconnect.2 10 waitingOps "W" (by decide)).2 "R"
      { members := [("A", stHostA)], locked := true, waiting := [("W", "w")] }
      (by decide)).2.2 (by decide) (by decide) ("A", stHostA) (by decide) (by decide)

/-! ## Claim C8: the state-update frame -/

/-- C8 counterexample: after `roleUpdateTrace` — a state-update from the host
whose partial carries only a role field — the sender's stored role is guest:
the spread merge overwrites role (and likewise name) when the partial
supplies it, so those fields are not protected. -/
theorem C8_counterexample :
    lookupA "A" ((lookupA "R" (run 10 startConfig roleUpdateTrace).rooms).getD
        freshRoom).members =
      some { name := "a", muted := false, videoOn := true, handRaised := false,
             role := Role.guest } := by
  decide

/-- C8 amended: a state-update from an active member overwrites its stored
MemberState field by field with exactly the fields the partial carries
(absent fields unchanged) — including name and role when supplied, which the
handler does not filter; there is no stored sharing field — and `{id,
partial}` is emitted to every other active member of the room and never to
the sender. -/
theorem C8_amended_state_update (m : Nat) (ops : List Op) (sid rid : String)
    (p : PartialState) (room : RoomInfo) (cur : MemberState)
    (hs : (lookupA sid (run m startConfig ops).sockets).isSome = true)
    (hr : lookupA rid (run m startConfig ops).rooms = some room)
    (hcur : lookupA sid room.members = some cur) :
    lookupA rid (step m (run m startConfig ops) (Op.stateUpdate sid rid p)).1.rooms =
      some { room with
        members :=
          upsertA sid
            ({ name := p.name.getD cur.name, muted := p.muted.getD cur.muted,
               videoOn := p.videoOn.getD cur.videoOn,
               handRaised := p.handRaised.getD cur.handRaised,
               role := p.role.getD cur.role } : MemberState)
            room.members } ∧
    (∀ e, (sid, e) ∉ (step m (run m startConfig ops) (Op.stateUpdate sid rid p)).2) ∧
    (∀ q ∈ room.members, q.1 ≠ sid →
      (q.1, Event.stateUpdate sid p) ∈
        (step m (run m startConfig ops) (Op.stateUpdate sid rid p)).2) := by
  have hInv := inv_run m ops
  simp only [step]
  rw [if_pos hs]
  simp only [stateUpdateH, hr, hcur]
  refine ⟨lookupA_upsertA_self _ _ _, ?_, ?_⟩
  · intro e
    exact not_mem_emitToRoomExcept_self e
  · intro q hq hqs
    exact mem_emitToRoomExcept _ (mem_roomSockets_of_joined
      (hInv.tinv.memJoined (rid, room) (mem_of_lookupA_eq_some hr) q hq)) hqs

/-- Witness for C8 amended: `A` mutes itself in the two-member room; the
merged state keeps all other fields, the broadcast reaches `B` and is not
echoed to `A`. -/
theorem C8_witness :
    (lookupA "R" (step 10 (run 10 startConfig twoMemberOps)
        (Op.stateUpdate "A" "R" { muted := some true })).1.rooms =
      some
        ({ members :=
             upsertA "A"
               ({ name := (none : Option String).getD stHostA.name,
                  muted := (some true).getD stHostA.muted,
                  videoOn := (none : Option Bool).getD stHostA.videoOn,
                  handRaised := (none : Option Bool).getD stHostA.handRaised,
                  role := (none : Option Role).getD stHostA.role } : MemberState)
               [("A", stHostA), ("B", stGuestB)],
           locked := false, waiting := [] } : RoomInfo)) ∧
    (("A", Event.stateUpdate "A" { muted := some true }) ∉
      (step 10 (run 10 startConfig twoMemberOps)
        (Op.stateUpdate "A" "R" { muted := some true })).2) ∧
    (("B", Event.stateUpdate "A" { muted := some true }) ∈
      (step 10 (run 10 startConfig twoMemberOps)
        (Op.stateUpdate "A" "R" { muted := some true })).2) := by
  have h8 := C8_amended_state_update 10 twoMemberOps "A" "R" { muted := some true }
    { members := [("A", stHostA), ("B", stGuestB)], locked := false, waiting := [] }
    stHostA (by decide) (by decide) (by decide)
  exact ⟨h8.1, h8.2.1 (Event.stateUpdate "A" { muted := some true }),
    h8.2.2 ("B", stGuestB) (by decide) (by decide)⟩

/-! ## Claim C9: reactions -/

/-- C9 counterexample: the sending member `A` itself receives the reaction it
sent — the room-wide broadcast includes the sender whenever the sender has
joined the room, so the router does emit the reaction back to the sending
session. -/
theorem C9_counterexample :
    ("A", Event.reaction "A" "x") ∈
      (step 10 (run 10 startConfig oneMemberOps) (Op.reaction "A" "R" "x")).2 := by
  decide

/-- C9 amended: a reaction is ignored without reply, error or state change
when the stated room does not exist or the emoji is empty; otherwise the
state is still unchanged and `{from, emoji}` is emitted to the whole
transport room — every active member receives it, including the sending
session itself when the sender is an active member. -/
theorem C9_amended_reaction (m : Nat) (ops : List Op) (sid rid emoji : String)
    (hs : (lookupA sid (run m startConfig ops).sockets).isSome = true) :
    (step m (run m startConfig ops) (Op.reaction sid rid emoji)).1 = run m startConfig ops ∧
    ((lookupA rid (run m startConfig ops).rooms = none ∨ emoji = "") →
      (step m (run m startConfig ops) (Op.reaction sid rid emoji)).2 = []) ∧
    (∀ room, lookupA rid (run m startConfig ops).rooms = some room → emoji ≠ "" →
      (step m (run m startConfig ops) (Op.reaction sid rid emoji)).2 =
        emitToRoom (run m startConfig ops).sockets rid (Event.reaction sid emoji) ∧
      ∀ q ∈ room.members,
        (q.1, Event.reaction sid emoji) ∈
          (step m (run m startConfig ops) (Op.reaction sid rid emoji)).2) := by
  have hInv := inv_run m ops
  simp only [step]
  rw [if_pos hs]
  refine ⟨reactionH_fst _ _ _ _, ?_, ?_⟩
  · intro hcond
    rcases hcond with hnone | hemp
    · simp [reactionH, hnone]
    · cases hre : lookupA rid (run m startConfig ops).rooms with
      | none => simp [reactionH, hre]
      | some room => simp [reactionH, hre, hemp]
  · intro room hre hemp
    have heq : (reactionH (run m startConfig ops) sid rid emoji).2 =
        emitToRoom (run m startConfig ops).sockets rid (Event.reaction sid emoji) := by
      simp [reactionH, hre, hemp]
    refine ⟨heq, ?_⟩
    intro q hq
    rw [heq]
    exact mem_emitToRoom _ (mem_roomSockets_of_joined
      (hInv.tinv.memJoined (rid, room) (mem_of_lookupA_eq_some hre) q hq))

/-- Witness for C9 amended: a reaction in the one-member room leaves the
state unchanged, is broadcast to the transport room, and reaches the sending
member itself. -/
theorem C9_witness :
    (step 10 (run 10 startConfig oneMemberOps) (Op.reaction "A" "R" "y")).1 =
      run 10 startConfig oneMemberOps ∧
    (step 10 (run 10 startConfig oneMemberOps) (Op.reaction "A" "R" "y")).2 =
      emitToRoom (run 10 startConfig oneMemberOps).sockets "R" (Event.reaction "A" "y") ∧
    ("A", Event.reaction "A" "y") ∈
      (step 10 (run 10 startConfig oneMemberOps) (Op.reaction "A" "R" "y")).2 := by
  have h9 := C9_amended_reaction 10 oneMemberOps "A" "R" "y" (by decide)
  have h93 := h9.2.2 { members := [("A", stHostA)], locked := false, waiting := [] }
    (by decide) (by decide)
  exact ⟨h9.1, h93.1, h93.2 ("A", stHostA) (by decide)⟩

end VideoCall
